import Mathlib

/-!
# go-json-matcher: the structural matcher of `json_matcher.go`

A shallow embedding of the matching engine (`_match`, `_matchWithSpecifier`,
`_matchMap`, `_matchSlice`, `_matchPrimitive` and their helpers) followed by
theorems about it.

Modelling conventions.

* A decoded document or pattern (`interface{}` filled by `json.Unmarshal`) is a
  `Value`. A JSON number is decoded to a finite `float64`; finite `float64`
  values compare under `==` exactly like the rationals they denote, so a number
  is represented by its rational value.
* A Go `map[string]interface{}` is an association list. `MapIndex` is
  `List.lookup`; `MapRange` enumerates the list in order. Go leaves the
  iteration order unspecified, so a statement quantified over all lists covers
  every order. Keys of a real map are unique; theorems that need this say so.
* A Go result `(bool, error)` is `Outcome.ret b err`. `reflect.Value.Index`
  panics when the index is out of range; that is `Outcome.indexPanic`.
* Error values are kept as a tree (`MatchError`) mirroring the `fmt.Errorf`
  wrapping, not as formatted text.
* `time.Parse`, `regexp.Compile` and `Regexp.MatchString` belong to the Go
  standard library. They are parameters of the model (`Lib`).
-/

namespace Matcher

/-- A decoded JSON value: `nil`, `bool`, `float64`, `string`, `[]interface{}`,
`map[string]interface{}`. -/
inductive Value where
  | null
  | bool (b : Bool)
  | num (n : ℚ)
  | str (s : String)
  | arr (xs : List Value)
  | obj (kvs : List (String × Value))

/-- The `reflect.Kind` constants that occur in the source. -/
inductive Kind where
  | invalid | bool | int | int64 | float64 | string | map | slice | array | ptr | struct
  | interface
  deriving DecidableEq, Repr

/-- Kind of `reflect.ValueOf(x)`: the zero `reflect.Value` (kind `Invalid`) for `nil`. -/
def Value.kind : Value → Kind
  | .null => .invalid
  | .bool _ => .bool
  | .num _ => .float64
  | .str _ => .string
  | .arr _ => .slice
  | .obj _ => .map

/-- The test `x == nil` on an `interface{}`. -/
def Value.isNil : Value → Bool
  | .null => true
  | _ => false

/-- The method `reflect.ValueOf(x).IsValid()`. -/
def Value.isValid (x : Value) : Bool :=
  x.kind != .invalid

/-- The type assertion `x.(string)`. -/
def Value.asString : Value → Option String
  | .str s => some s
  | _ => none

/-- The errors built by `fmt.Errorf` in the source, as a tree. -/
inductive MatchError where
  /-- "expected exactly one argument for #regex" -/
  | regexArgument
  /-- "invalid regex argument to #regex: ..." -/
  | regexInvalid (arg : String)
  /-- "unsupported specifier '...'" -/
  | unsupportedSpecifier (spec : String)
  /-- "unable to compare ... - kind ... is not supported" -/
  | kindNotSupported (kind : Kind)
  /-- "wrong kind for left value, expected ..., got ..." -/
  | wrongKindLeft (got : Kind)
  /-- "wrong kind for specifier value, expected ..., got ..." -/
  | wrongKindSpecifier (got : Kind)
  /-- "can't compare map element ...: ..." -/
  | mapElement (key : String) (cause : MatchError)
  /-- "can't compare slice element ...: ..." -/
  | sliceElement (i : Nat) (cause : MatchError)
  /-- "can't unmarshal left argument: ..." -/
  | unmarshalLeft (cause : String)
  /-- "can't unmarshal specifier argument: ..." -/
  | unmarshalSpecifier (cause : String)
  deriving DecidableEq, Repr

/-- What a call of the matcher does: it returns `(matched, err)` or it panics in
`reflect.Value.Index` ("reflect: slice index out of range"). -/
inductive Outcome where
  | ret (matched : Bool) (err : Option MatchError)
  | indexPanic
  deriving DecidableEq, Repr

/-- The Go standard library calls made by `_matchWithSpecifier`. -/
structure Lib where
  /-- `time.Parse("2006-01-02", s)` succeeds -/
  timeParseDate : String → Bool
  /-- `time.Parse(time.RFC3339, s)` succeeds -/
  timeParseRFC3339 : String → Bool
  /-- `uuidRe.MatchString(s)` -/
  uuidRe : String → Bool
  /-- `uuidV4Re.MatchString(s)` -/
  uuidV4Re : String → Bool
  /-- `regexp.Compile(arg)`: `none` on a compile error, else the `MatchString` of the
  compiled expression -/
  regexpCompile : String → Option (String → Bool)

/-- A library instance for evaluating the matcher on concrete inputs: nothing parses as a
date or a UUID and no text compiles as a regular expression. -/
def Lib.rejecting : Lib where
  timeParseDate := fun _ => false
  timeParseRFC3339 := fun _ => false
  uuidRe := fun _ => false
  uuidV4Re := fun _ => false
  regexpCompile := fun _ => none

/-- A library instance for evaluating the matcher on concrete inputs: every text compiles
as a regular expression, which matches every string; every string parses as a date and as a
UUID. -/
def Lib.permissive : Lib where
  timeParseDate := fun _ => true
  timeParseRFC3339 := fun _ => true
  uuidRe := fun _ => true
  uuidV4Re := fun _ => true
  regexpCompile := fun _ => some (fun _ => true)

open Outcome

def ignoreMarker : String := "#ignore"

def nullMarker : String := "#null"

def presentMarker : String := "#present"

/-- The call `strings.HasPrefix(s, "#")`. -/
def hasHash (s : String) : Bool :=
  match s.data with
  | c :: _ => c == '#'
  | [] => false

/-- Source `getMarker`. -/
def getMarker (y : Value) : Bool × String :=
  match y.asString with
  | some specString => if hasHash specString then (true, specString) else (false, "")
  | none => (false, "")

/-- Source `isMarker`. -/
def isMarker (y : Value) (marker : String) : Bool :=
  (getMarker y).1 && marker == (getMarker y).2

/-- Source `_matchZero`. -/
def _matchZero (x : Value) : Outcome :=
  if !x.isValid then ret true none else ret false none

/-- The call `strings.SplitN(spec, " ", 2)`: the text before the first space, and the
text after it when there is a space (then the result has length 2). -/
def splitN (spec : String) : String × Option String :=
  match spec.data.span (fun c => c != ' ') with
  | (name, []) => (String.mk name, none)
  | (name, _ :: arg) => (String.mk name, some (String.mk arg))

mutual

/-- The call `reflect.DeepEqual(x, y)` on decoded values. -/
def deepEqual : Value → Value → Bool
  | .null, .null => true
  | .bool a, .bool b => a == b
  | .num a, .num b => a == b
  | .str a, .str b => a == b
  | .arr xs, .arr ys => deepEqualSlice xs ys
  | .obj xs, .obj ys => xs.length == ys.length && deepEqualMap xs ys
  | _, _ => false

/-- DeepEqual on slices: same length and equal elements. -/
def deepEqualSlice : List Value → List Value → Bool
  | [], [] => true
  | x :: xs, y :: ys => deepEqual x y && deepEqualSlice xs ys
  | _, _ => false

/-- DeepEqual on maps of equal length: every entry of the first is in the second. -/
def deepEqualMap : List (String × Value) → List (String × Value) → Bool
  | [], _ => true
  | (k, v) :: rest, ys =>
    (match ys.lookup k with
      | some w => deepEqual v w
      | none => false) && deepEqualMap rest ys

end

/-- Source `_matchPrimitive`. -/
def _matchPrimitive (x y : Value) : Outcome :=
  ret (deepEqual x y) none

/-- Source `_matchWithSpecifier`. A decoded value never has kind `Ptr`, `Struct` or
`Array`; the branches on those kinds are kept as written. -/
def _matchWithSpecifier (L : Lib) (x : Value) (spec : String) : Outcome :=
  if x.isNil && (spec == ignoreMarker || spec == nullMarker || spec == presentMarker) then
    ret true none
  else if !x.isValid then
    ret false none
  else
    let specParts := splitN spec
    if specParts.1 = ignoreMarker then ret true none
    else if specParts.1 = nullMarker then
      if x.kind ≠ .ptr then ret false none else ret x.isNil none
    else if specParts.1 = "#notnull" then
      if x.kind ≠ .ptr then ret true none else ret (!x.isNil) none
    else if specParts.1 = presentMarker then ret true none
    else if specParts.1 = "#notpresent" then ret false none
    else if specParts.1 = "#array" then
      if x.kind ≠ .array ∧ x.kind ≠ .slice then ret false none else ret true none
    else if specParts.1 = "#object" then
      if x.kind ≠ .map then ret false none else ret true none
    else if specParts.1 = "#bool" ∨ specParts.1 = "#boolean" then
      if x.kind ≠ .bool then ret false none else ret true none
    else if specParts.1 = "#number" then
      if x.kind ≠ .int64 ∧ x.kind ≠ .float64 then ret false none else ret true none
    else if specParts.1 = "#string" then
      if x.kind ≠ .string then ret false none else ret true none
    else if specParts.1 = "#date" then
      if x.kind = .string then
        match x.asString with
        | none => ret false none
        | some xString => if L.timeParseDate xString then ret true none else ret false none
      else ret false none
    else if specParts.1 = "#datetime" then
      if x.kind = .string then
        match x.asString with
        | none => ret false none
        | some xString => if L.timeParseRFC3339 xString then ret true none else ret false none
      else ret false none
    else if specParts.1 = "#uuid" then
      if x.kind ≠ .string then ret false none
      else
        match x.asString with
        | some xString => ret (L.uuidRe xString) none
        | none => ret false none
    else if specParts.1 = "#uuid-v4" then
      if x.kind ≠ .string then ret false none
      else
        match x.asString with
        | some xString => ret (L.uuidV4Re xString) none
        | none => ret false none
    else if specParts.1 = "#regex" then
      match specParts.2 with
      | none => ret false (some .regexArgument)
      | some arg =>
        match L.regexpCompile arg with
        | none => ret false (some (.regexInvalid arg))
        | some r =>
          if x.kind ≠ .string then ret false none
          else
            match x.asString with
            | some xString => ret (r xString) none
            | none => ret false none
    else ret false (some (.unsupportedSpecifier spec))

/-- The three functions stored in the source table `matchers`. -/
inductive MatcherFn where
  | primitive | map | slice
  deriving DecidableEq, Repr

/-- Source table `matchers`, filled by `init`. -/
def matchers : Kind → Option MatcherFn
  | .bool => some .primitive
  | .string => some .primitive
  | .int => some .primitive
  | .int64 => some .primitive
  | .float64 => some .primitive
  | .map => some .map
  | .slice => some .slice
  | .array => some .slice
  | _ => none

theorem sizeOf_lookup_lt {k : String} {v : Value} :
    ∀ {m : List (String × Value)}, m.lookup k = some v → sizeOf v < sizeOf m
  | [], h => by simp at h
  | (k', w) :: rest, h => by
    simp only [List.lookup] at h
    split at h
    · cases h; simp; omega
    · have := sizeOf_lookup_lt (m := rest) h
      simp; omega

theorem sizeOf_getElem_lt (xs : List Value) (i : Nat) (h : i < xs.length) :
    sizeOf xs[i] < sizeOf xs := by
  induction xs generalizing i with
  | nil => simp at h
  | cons w rest ih =>
    cases i with
    | zero => simp; omega
    | succ j =>
      have := ih j (by simpa using h)
      simp; omega

set_option linter.unusedVariables false in
mutual

/-- Source `_match`. -/
def _match (L : Lib) (x spec : Value) : Outcome :=
  if !spec.isValid then _matchZero x
  else if spec.kind = .string ∧ (getMarker spec).1 then
    _matchWithSpecifier L x (getMarker spec).2
  else if !x.isValid then ret false none
  else if x.kind ≠ spec.kind then ret false none
  else
    match matchers spec.kind with
    | some .primitive => _matchPrimitive x spec
    | some .map => _matchMap L x spec
    | some .slice => _matchSlice L x spec
    | none => ret false (some (.kindNotSupported x.kind))
termination_by (sizeOf x, 3, 0)

/-- Source `_matchMap`. -/
def _matchMap (L : Lib) (x y : Value) : Outcome :=
  match x with
  | .obj vX =>
    match y with
    | .obj vY =>
      match _matchMapCheckIteratingObject L vX vY with
      | indexPanic => indexPanic
      | ret _ (some err) => ret false (some err)
      | ret false none => ret false none
      | ret true none =>
        match _matchMapCheckIteratingSpec L vX vY with
        | indexPanic => indexPanic
        | ret _ (some err) => ret false (some err)
        | ret matched none => ret matched none
    | _ => ret false (some (.wrongKindSpecifier x.kind))
  | _ => ret false (some (.wrongKindLeft x.kind))
termination_by (sizeOf x, 2, 0)

/-- Source `_matchMapCheckIteratingObject`: `matches := true`, then the loop over
`vX.MapRange()`. -/
def _matchMapCheckIteratingObject (L : Lib) (vX vY : List (String × Value)) : Outcome :=
  _matchMapCheckIteratingObjectLoop L vY vX true
termination_by (sizeOf vX, 1, 0)

/-- The `for iterX.Next()` loop of `_matchMapCheckIteratingObject`; `iterX` holds the
entries not yet visited. -/
def _matchMapCheckIteratingObjectLoop (L : Lib) (vY iterX : List (String × Value))
    (matched : Bool) : Outcome :=
  match iterX with
  | [] => ret matched none
  | (key, value) :: next =>
    match vY.lookup key with
    | none => _matchMapCheckIteratingObjectLoop L vY next matched
    | some ySpecValue =>
      match _match L value ySpecValue with
      | indexPanic => indexPanic
      | ret _ (some err) => ret false (some (.mapElement key err))
      | ret itemMatches none =>
        _matchMapCheckIteratingObjectLoop L vY next (matched && itemMatches)
termination_by (sizeOf iterX, 0, 0)

/-- Source `_matchMapCheckIteratingSpec`: `matches := true`, then the loop over
`vY.MapRange()`. -/
def _matchMapCheckIteratingSpec (L : Lib) (vX vY : List (String × Value)) : Outcome :=
  _matchMapCheckIteratingSpecLoop L vX vY true
termination_by (sizeOf vX, 1, 0)

/-- The `for iterY.Next()` loop of `_matchMapCheckIteratingSpec`; `iterY` holds the
entries not yet visited. The element type of the map is `interface{}`, so the test
`ySpecValue.Kind() == reflect.Interface` always holds. -/
def _matchMapCheckIteratingSpecLoop (L : Lib) (vX iterY : List (String × Value))
    (matched : Bool) : Outcome :=
  match iterY with
  | [] => ret matched none
  | (key, ySpecValue) :: next =>
    if (getMarker ySpecValue).1 ∧ (getMarker ySpecValue).2 = "#notpresent" then
      _matchMapCheckIteratingSpecLoop L vX next (matched && (vX.lookup key).isNone)
    else if (getMarker ySpecValue).1 ∧ (getMarker ySpecValue).2 = presentMarker then
      _matchMapCheckIteratingSpecLoop L vX next (matched && (vX.lookup key).isSome)
    else if !isMarker ySpecValue ignoreMarker then
      match h : vX.lookup key with
      | none => _matchMapCheckIteratingSpecLoop L vX next false
      | some xValue =>
        match _match L xValue ySpecValue with
        | indexPanic => indexPanic
        | ret _ (some err) => ret false (some (.mapElement key err))
        | ret itemMatches none =>
          _matchMapCheckIteratingSpecLoop L vX next (matched && itemMatches)
    else _matchMapCheckIteratingSpecLoop L vX next matched
termination_by (sizeOf vX, 0, iterY.length)
decreasing_by
  all_goals simp_wf
  all_goals first
    | (apply Prod.Lex.right; apply Prod.Lex.right; simp)
    | (apply Prod.Lex.left; exact sizeOf_lookup_lt h)

/-- Source `_matchSlice`. -/
def _matchSlice (L : Lib) (x y : Value) : Outcome :=
  match x with
  | .arr vX =>
    match y with
    | .arr vY =>
      if h : vY.length = 2 then
        if (getMarker vY[0]).1 ∧ (getMarker vY[0]).2 = "#array-of" then
          _matchSliceLoop L vX vY true vY[1] 0 true
        else _matchSliceLoop L vX vY false .null 0 true
      else if vX.length ≠ vY.length then ret false none
      else _matchSliceLoop L vX vY false .null 0 true
    | _ => ret false (some (.wrongKindSpecifier x.kind))
  | _ => ret false (some (.wrongKindLeft x.kind))
termination_by (sizeOf x, 2, 0)

/-- The `for i := 0; i < sliceLen; i++` loop of `_matchSlice`. `vY.Index(i)` panics when
`i` is not below `vY.Len()`. -/
def _matchSliceLoop (L : Lib) (vX vY : List Value) (isArrayOf : Bool) (arrayOf : Value)
    (i : Nat) (matched : Bool) : Outcome :=
  if h : i < vX.length then
    match (if isArrayOf then some arrayOf else vY[i]?) with
    | none => indexPanic
    | some ySpecElem =>
      match _match L vX[i] ySpecElem with
      | indexPanic => indexPanic
      | ret _ (some err) => ret false (some (.sliceElement i err))
      | ret itemMatches none =>
        _matchSliceLoop L vX vY isArrayOf arrayOf (i + 1) (matched && itemMatches)
  else ret matched none
termination_by (sizeOf vX, 0, vX.length - i)
decreasing_by
  · apply Prod.Lex.left; exact sizeOf_getElem_lt vX i h
  · apply Prod.Lex.right; apply Prod.Lex.right; omega

end

/-- Source `JSONMatches`. The argument `jsonUnmarshal` is `json.Unmarshal` into an
`interface{}`: the decoded value, or the text of the decode error. -/
def JSONMatches (L : Lib) (jsonUnmarshal : ByteArray → Except String Value)
    (j jSpec : ByteArray) : Outcome :=
  match jsonUnmarshal j with
  | .error err => ret false (some (.unmarshalLeft err))
  | .ok jAny =>
    match jsonUnmarshal jSpec with
    | .error err => ret false (some (.unmarshalSpecifier err))
    | .ok specAny => _match L jAny specAny

/-- Source `JSONStringMatches`; the conversion `[]byte(j)` is `String.toUTF8`. -/
def JSONStringMatches (L : Lib) (jsonUnmarshal : ByteArray → Except String Value)
    (j jSpec : String) : Outcome :=
  JSONMatches L jsonUnmarshal j.toUTF8 jSpec.toUTF8

/-! ## Vocabulary of the specification -/

mutual

/-- No string among the values of the tree begins with `#` (object keys are not values). -/
def literal : Value → Bool
  | .str s => !hasHash s
  | .arr xs => literalSlice xs
  | .obj kvs => literalMap kvs
  | _ => true

/-- Literal, for the elements of an array. -/
def literalSlice : List Value → Bool
  | [] => true
  | x :: xs => literal x && literalSlice xs

/-- Literal, for the values of an object. -/
def literalMap : List (String × Value) → Bool
  | [] => true
  | (_, v) :: rest => literal v && literalMap rest

end

mutual

/-- Every object of the tree is a Go map: no key occurs twice. -/
def uniqueKeys : Value → Bool
  | .arr xs => uniqueKeysSlice xs
  | .obj kvs => decide (kvs.map Prod.fst).Nodup && uniqueKeysMap kvs
  | _ => true

/-- Unique keys, for the elements of an array. -/
def uniqueKeysSlice : List Value → Bool
  | [] => true
  | x :: xs => uniqueKeys x && uniqueKeysSlice xs

/-- Unique keys, for the values of an object. -/
def uniqueKeysMap : List (String × Value) → Bool
  | [] => true
  | (_, v) :: rest => uniqueKeys v && uniqueKeysMap rest

end

/-- The value is a JSON array. -/
def Value.isArr : Value → Bool
  | .arr _ => true
  | _ => false

/-- The value is a JSON object. -/
def Value.isObj : Value → Bool
  | .obj _ => true
  | _ => false

/-- The value is a JSON number. -/
def Value.isNum : Value → Bool
  | .num _ => true
  | _ => false

/-- The value is a JSON string. -/
def Value.isStr : Value → Bool
  | .str _ => true
  | _ => false

/-- The value is a JSON boolean. -/
def Value.isBool : Value → Bool
  | .bool _ => true
  | _ => false


/-- The Go assignment `d[k] = x` on a map: the value of an existing key is replaced, a new
key is added. -/
def setKey (d : List (String × Value)) (k : String) (x : Value) : List (String × Value) :=
  if (d.lookup k).isSome then d.map (fun e => if e.1 == k then (k, x) else e)
  else d ++ [(k, x)]

/-- The Go statement `delete(p, k)` on a map. -/
def removeKey (p : List (String × Value)) (k : String) : List (String × Value) :=
  p.filter (fun e => e.1 != k)

/-- The case labels of `switch specParts[0]` in `_matchWithSpecifier`: the markers of the
specifier table. -/
def specifierTable : List String :=
  ["#ignore", "#null", "#notnull", "#present", "#notpresent", "#array", "#object", "#bool",
    "#boolean", "#number", "#string", "#date", "#datetime", "#uuid", "#uuid-v4", "#regex"]

/-- The array-of sugar shape: a 2-element pattern array whose first element is the string
`"#array-of"`. -/
def isArrayOfSugar (p : List Value) : Prop :=
  p.length = 2 ∧ p.head? = some (.str "#array-of")

/-- A result that carries an error: `(b, err)` with `err != nil`. -/
def Outcome.isError : Outcome → Bool
  | ret _ (some _) => true
  | _ => false

/-- A decoder for evaluating the entry points on concrete inputs: it decodes the text `15`
(bytes 49, 53) to the number 15 and rejects every other text. -/
def sampleUnmarshal (b : ByteArray) : Except String Value :=
  if b.data.toList = [49, 53] then .ok (.num 15) else .error "invalid character"

mutual

/-- No array of the pattern has exactly 2 elements, except those of the array-of sugar
shape. -/
def noPositionalPair : Value → Bool
  | .arr ys =>
    (ys.length != 2 || isMarker (ys.headD .null) "#array-of") && noPositionalPairSlice ys
  | .obj kvs => noPositionalPairMap kvs
  | _ => true

/-- The same, for the elements of an array. -/
def noPositionalPairSlice : List Value → Bool
  | [] => true
  | y :: ys => noPositionalPair y && noPositionalPairSlice ys

/-- The same, for the values of an object. -/
def noPositionalPairMap : List (String × Value) → Bool
  | [] => true
  | (_, v) :: rest => noPositionalPair v && noPositionalPairMap rest

end

/-- What a caller observes of a result: the verdict and whether an error is present; nothing
for a panic. -/
def Outcome.observation : Outcome → Option (Bool × Bool)
  | ret b err => some (b, err.isSome)
  | indexPanic => none

/-- What the two passes of the source make of one pattern key `k` with pattern `pat`, read
off `_matchMapCheckIteratingSpec`: the three markers are tested as whole strings (the
`switch marker` and the call `isMarker(..., ignoreMarker)`), so a marker followed by an
argument falls to the last case. An intermediate step between the source and the
specification; it is not the reading of the specification, which is `keyContribution`. -/
def exactKeyContribution (L : Lib) (d : List (String × Value)) (k : String) (pat : Value) :
    Outcome :=
  if isMarker pat "#notpresent" then ret (d.lookup k).isNone none
  else if isMarker pat "#present" then ret (d.lookup k).isSome none
  else if isMarker pat "#ignore" then ret true none
  else
    match d.lookup k with
    | none => ret false none
    | some v => _match L v pat

/-- A single pass over the pattern's keys with the whole-string test of
`exactKeyContribution`. -/
def exactSinglePass (L : Lib) (d : List (String × Value)) :
    List (String × Value) → Outcome
  | [] => ret true none
  | (k, pat) :: rest =>
    match exactKeyContribution L d k pat with
    | indexPanic => indexPanic
    | ret _ (some err) => ret false (some err)
    | ret b none =>
      match exactSinglePass L d rest with
      | ret b' none => ret (b && b') none
      | other => other

/-- Section 4.1 of the specification, `recognize(v)`: defined only if `v` is a string whose
first character is `#`; the string is split on the first space into the name and, when
there is a space, the argument (everything after that space). -/
def recognize : Value → Option (String × Option String)
  | .str s => if hasHash s then some (splitN s) else none
  | _ => none

/-- The specification's "`pat` is marker `name`": `pat` is recognised as a marker of this
name, with or without an argument. -/
def isMarkerNamed (pat : Value) (name : String) : Bool :=
  match recognize pat with
  | some (n, _) => n == name
  | none => false

/-- Reference of section 4.4 of the specification, the contribution of one pattern key `k`
with pattern `pat`: `!(k in d)` if `pat` is marker `#notpresent`, `(k in d)` if it is marker
`#present`, true if it is marker `#ignore`; for any other pattern, false when `k` is absent
and `match(d[k], pat)` otherwise. -/
def keyContribution (L : Lib) (d : List (String × Value)) (k : String) (pat : Value) :
    Outcome :=
  if isMarkerNamed pat "#notpresent" then ret (d.lookup k).isNone none
  else if isMarkerNamed pat "#present" then ret (d.lookup k).isSome none
  else if isMarkerNamed pat "#ignore" then ret true none
  else
    match d.lookup k with
    | none => ret false none
    | some v => _match L v pat

/-- Reference of section 4.4 of the specification: a single pass over the pattern's keys. The
verdict is the conjunction of the contributions; an error aborts the pass with that error. -/
def referenceMatchMap (L : Lib) (d : List (String × Value)) :
    List (String × Value) → Outcome
  | [] => ret true none
  | (k, pat) :: rest =>
    match keyContribution L d k pat with
    | indexPanic => indexPanic
    | ret _ (some err) => ret false (some err)
    | ret b none =>
      match referenceMatchMap L d rest with
      | ret b' none => ret (b && b') none
      | other => other

/-- The pattern is not one of the markers `#notpresent`, `#present`, `#ignore` followed by
an argument. -/
def presenceMarkerBare (pat : Value) : Bool :=
  match recognize pat with
  | some (n, some _) => !(n == "#notpresent" || n == "#present" || n == "#ignore")
  | _ => true

/-- The error was raised by `_matchWithSpecifier`, directly or under the wrapping of the
enclosing map and slice loops. -/
def MatchError.specifierCause : MatchError → Bool
  | .regexArgument => true
  | .regexInvalid _ => true
  | .unsupportedSpecifier _ => true
  | .mapElement _ cause => cause.specifierCause
  | .sliceElement _ cause => cause.specifierCause
  | _ => false

/-- If the result carries an error, `_matchWithSpecifier` raised it. -/
def Outcome.errorFromSpecifier : Outcome → Bool
  | ret _ (some err) => err.specifierCause
  | _ => true

/-- The argument-less markers of the specifier table. -/
def plainMarkers : List String :=
  ["#ignore", "#null", "#notnull", "#present", "#notpresent", "#array", "#object", "#bool",
    "#boolean", "#number", "#string", "#date", "#datetime", "#uuid", "#uuid-v4"]

mutual

/-- Every string value of the pattern that begins with `#` is an argument-less marker of the
specifier table, or is `"#array-of"` at the head of a 2-element array. -/
def onlyKnownMarkers : Value → Bool
  | .str s => !hasHash s || plainMarkers.contains s
  | .arr ys =>
    onlyKnownMarkersSlice (ys.length == 2 && isMarker (ys.headD .null) "#array-of") ys
  | .obj kvs => onlyKnownMarkersMap kvs
  | _ => true

/-- The same, for the elements of an array; with `sugar` set, the head is the `"#array-of"`
of the sugar and is passed over. -/
def onlyKnownMarkersSlice : Bool → List Value → Bool
  | _, [] => true
  | true, _ :: ys => onlyKnownMarkersSlice false ys
  | false, y :: ys => onlyKnownMarkers y && onlyKnownMarkersSlice false ys

/-- The same, for the values of an object. -/
def onlyKnownMarkersMap : List (String × Value) → Bool
  | [] => true
  | (_, v) :: rest => onlyKnownMarkers v && onlyKnownMarkersMap rest

end

/-! ## Unfolding equations -/

theorem getMarker_str (s : String) :
    getMarker (.str s) = if hasHash s then (true, s) else (false, "") := by
  simp [getMarker, Value.asString]

theorem getMarker_eq_iff (y : Value) (s : String) (hs : hasHash s = true) :
    ((getMarker y).1 = true ∧ (getMarker y).2 = s) ↔ y = .str s := by
  cases y <;> simp [getMarker, Value.asString]
  case str t =>
    by_cases ht : hasHash t = true
    · simp [ht]
    · simp [ht]
      intro h
      exact ht (h ▸ hs)

theorem isMarker_eq_true_iff (y : Value) (s : String) (hs : hasHash s = true) :
    isMarker y s = true ↔ y = .str s := by
  rw [← getMarker_eq_iff y s hs]
  unfold isMarker
  rw [Bool.and_eq_true, beq_iff_eq]
  exact and_congr_right fun _ => eq_comm

theorem _match_marker (L : Lib) (x : Value) (s : String) (hs : hasHash s = true) :
    _match L x (.str s) = _matchWithSpecifier L x s := by
  rw [_match]
  simp [Value.isValid, Value.kind, getMarker_str, hs]

theorem _match_arr (L : Lib) (vX vY : List Value) :
    _match L (.arr vX) (.arr vY) = _matchSlice L (.arr vX) (.arr vY) := by
  rw [_match]
  simp [Value.isValid, Value.kind, getMarker, Value.asString, matchers]

theorem _match_obj (L : Lib) (vX vY : List (String × Value)) :
    _match L (.obj vX) (.obj vY) = _matchMap L (.obj vX) (.obj vY) := by
  rw [_match]
  simp [Value.isValid, Value.kind, getMarker, Value.asString, matchers]

theorem objectLoop_nil (L : Lib) (vY : List (String × Value)) (matched : Bool) :
    _matchMapCheckIteratingObjectLoop L vY [] matched = ret matched none := by
  rw [_matchMapCheckIteratingObjectLoop]

theorem objectLoop_cons (L : Lib) (vY next : List (String × Value)) (key : String)
    (value : Value) (matched : Bool) :
    _matchMapCheckIteratingObjectLoop L vY ((key, value) :: next) matched =
      match vY.lookup key with
      | none => _matchMapCheckIteratingObjectLoop L vY next matched
      | some ySpecValue =>
        match _match L value ySpecValue with
        | indexPanic => indexPanic
        | ret _ (some err) => ret false (some (.mapElement key err))
        | ret itemMatches none =>
          _matchMapCheckIteratingObjectLoop L vY next (matched && itemMatches) := by
  rw [_matchMapCheckIteratingObjectLoop]

theorem specLoop_nil (L : Lib) (vX : List (String × Value)) (matched : Bool) :
    _matchMapCheckIteratingSpecLoop L vX [] matched = ret matched none := by
  rw [_matchMapCheckIteratingSpecLoop]

theorem specLoop_cons (L : Lib) (vX next : List (String × Value)) (key : String)
    (ySpecValue : Value) (matched : Bool) :
    _matchMapCheckIteratingSpecLoop L vX ((key, ySpecValue) :: next) matched =
      if (getMarker ySpecValue).1 ∧ (getMarker ySpecValue).2 = "#notpresent" then
        _matchMapCheckIteratingSpecLoop L vX next (matched && (vX.lookup key).isNone)
      else if (getMarker ySpecValue).1 ∧ (getMarker ySpecValue).2 = presentMarker then
        _matchMapCheckIteratingSpecLoop L vX next (matched && (vX.lookup key).isSome)
      else if !isMarker ySpecValue ignoreMarker then
        match vX.lookup key with
        | none => _matchMapCheckIteratingSpecLoop L vX next false
        | some xValue =>
          match _match L xValue ySpecValue with
          | indexPanic => indexPanic
          | ret _ (some err) => ret false (some (.mapElement key err))
          | ret itemMatches none =>
            _matchMapCheckIteratingSpecLoop L vX next (matched && itemMatches)
      else _matchMapCheckIteratingSpecLoop L vX next matched := by
  rw [_matchMapCheckIteratingSpecLoop]
  split_ifs <;> try rfl
  split <;> rename_i h <;> simp [h]

theorem _matchMap_obj (L : Lib) (vX vY : List (String × Value)) :
    _matchMap L (.obj vX) (.obj vY) =
      match _matchMapCheckIteratingObjectLoop L vY vX true with
      | indexPanic => indexPanic
      | ret _ (some err) => ret false (some err)
      | ret false none => ret false none
      | ret true none =>
        match _matchMapCheckIteratingSpecLoop L vX vY true with
        | indexPanic => indexPanic
        | ret _ (some err) => ret false (some err)
        | ret matched none => ret matched none := by
  rw [_matchMap, _matchMapCheckIteratingObject, _matchMapCheckIteratingSpec]

theorem _matchSlice_arr (L : Lib) (vX vY : List Value) :
    _matchSlice L (.arr vX) (.arr vY) =
      if h : vY.length = 2 then
        if (getMarker vY[0]).1 ∧ (getMarker vY[0]).2 = "#array-of" then
          _matchSliceLoop L vX vY true vY[1] 0 true
        else _matchSliceLoop L vX vY false .null 0 true
      else if vX.length ≠ vY.length then ret false none
      else _matchSliceLoop L vX vY false .null 0 true := by
  rw [_matchSlice]

theorem _matchSliceLoop_eq (L : Lib) (vX vY : List Value) (isArrayOf : Bool) (arrayOf : Value)
    (i : Nat) (matched : Bool) :
    _matchSliceLoop L vX vY isArrayOf arrayOf i matched =
      if h : i < vX.length then
        match (if isArrayOf then some arrayOf else vY[i]?) with
        | none => indexPanic
        | some ySpecElem =>
          match _match L vX[i] ySpecElem with
          | indexPanic => indexPanic
          | ret _ (some err) => ret false (some (.sliceElement i err))
          | ret itemMatches none =>
            _matchSliceLoop L vX vY isArrayOf arrayOf (i + 1) (matched && itemMatches)
      else ret matched none := by
  rw [_matchSliceLoop]

/-! ## Markers without argument -/

theorem splitN_present : splitN "#present" = ("#present", none) := by
  simp [splitN, List.span, List.span.loop]

theorem splitN_notpresent : splitN "#notpresent" = ("#notpresent", none) := by
  simp [splitN, List.span, List.span.loop]

theorem splitN_ignore : splitN "#ignore" = ("#ignore", none) := by
  simp [splitN, List.span, List.span.loop]

theorem _match_present (L : Lib) (x : Value) :
    _match L x (.str "#present") = ret true none := by
  rw [_match_marker L x _ (by rfl)]
  cases x <;>
    simp [_matchWithSpecifier, Value.isNil, Value.isValid, Value.kind, splitN_present,
      ignoreMarker, nullMarker, presentMarker]

theorem _match_notpresent (L : Lib) (x : Value) :
    _match L x (.str "#notpresent") = ret false none := by
  rw [_match_marker L x _ (by rfl)]
  cases x <;>
    simp [_matchWithSpecifier, Value.isNil, Value.isValid, Value.kind, splitN_notpresent,
      ignoreMarker, nullMarker, presentMarker]

theorem _match_ignore (L : Lib) (x : Value) :
    _match L x (.str "#ignore") = ret true none := by
  rw [_match_marker L x _ (by rfl)]
  cases x <;>
    simp [_matchWithSpecifier, Value.isNil, Value.isValid, Value.kind, splitN_ignore,
      ignoreMarker, nullMarker, presentMarker]

/-! ## Keys of a map -/

theorem lookup_isSome_iff (k : String) (d : List (String × Value)) :
    (d.lookup k).isSome = true ↔ k ∈ d.map Prod.fst := by
  induction d with
  | nil => simp
  | cons e rest ih =>
    obtain ⟨key, v⟩ := e
    simp only [List.lookup, List.map_cons, List.mem_cons]
    by_cases h : k = key
    · subst h; simp
    · have : (k == key) = false := by simpa using h
      simp [this, ih, h]

theorem lookup_eq_none_iff (k : String) (d : List (String × Value)) :
    d.lookup k = none ↔ k ∉ d.map Prod.fst := by
  rw [← lookup_isSome_iff]
  cases d.lookup k <;> simp

/-! ## C4: presence markers -/

theorem objectLoop_present (L : Lib) (k : String) (d : List (String × Value)) (matched : Bool) :
    _matchMapCheckIteratingObjectLoop L [(k, .str "#present")] d matched = ret matched none := by
  induction d generalizing matched with
  | nil => rw [objectLoop_nil]
  | cons e rest ih =>
    obtain ⟨key, v⟩ := e
    rw [objectLoop_cons]
    by_cases h : key = k
    · subst h
      simp [List.lookup, _match_present, ih]
    · have : (key == k) = false := by simpa using h
      simp [List.lookup, this, ih]

theorem objectLoop_notpresent (L : Lib) (k : String) (d : List (String × Value))
    (matched : Bool) :
    _matchMapCheckIteratingObjectLoop L [(k, .str "#notpresent")] d matched =
      ret (matched && (d.lookup k).isNone) none := by
  induction d generalizing matched with
  | nil => rw [objectLoop_nil]; simp
  | cons e rest ih =>
    obtain ⟨key, v⟩ := e
    rw [objectLoop_cons]
    by_cases h : key = k
    · subst h
      simp [List.lookup, _match_notpresent, ih]
    · have h1 : (key == k) = false := by simpa using h
      have h2 : (k == key) = false := by simpa using Ne.symm h
      simp [List.lookup, h1, h2, ih]

/-- C4. Presence markers test key existence only. For every object document `d` and key
`k`: matching `d` against `{k: "#present"}` returns `(true, nil)` exactly when `k` is a key
of `d` (whatever its value, `null` included); matching `d` against `{k: "#notpresent"}`
returns `(true, nil)` exactly when `k` is not a key of `d`; and both calls return a verdict
without error (and without panic). -/
theorem presence_markers_test_key_existence (L : Lib) (d : List (String × Value))
    (k : String) :
    (_match L (.obj d) (.obj [(k, .str "#present")]) = ret true none ↔ k ∈ d.map Prod.fst) ∧
    (_match L (.obj d) (.obj [(k, .str "#notpresent")]) = ret true none ↔
      k ∉ d.map Prod.fst) ∧
    (∃ b, _match L (.obj d) (.obj [(k, .str "#present")]) = ret b none) ∧
    (∃ b, _match L (.obj d) (.obj [(k, .str "#notpresent")]) = ret b none) := by
  have hp : _match L (.obj d) (.obj [(k, .str "#present")]) =
      ret (d.lookup k).isSome none := by
    rw [_match_obj, _matchMap_obj, objectLoop_present]
    simp only [specLoop_cons, specLoop_nil]
    simp [getMarker_str, hasHash, presentMarker]
  have hn : _match L (.obj d) (.obj [(k, .str "#notpresent")]) =
      ret (d.lookup k).isNone none := by
    rw [_match_obj, _matchMap_obj, objectLoop_notpresent]
    cases h : d.lookup k with
    | some v => simp
    | none =>
      simp only [specLoop_cons, specLoop_nil]
      simp [getMarker_str, hasHash, h]
  refine ⟨?_, ?_, ⟨_, hp⟩, ⟨_, hn⟩⟩
  · rw [hp, ← lookup_isSome_iff]
    simp
  · rw [hn, ← lookup_eq_none_iff]
    cases d.lookup k <;> simp

/-! ## C1: lengths in the positional regime -/

/-- Where the pattern array does not have 2 elements, unequal lengths give `(false, nil)`. -/
theorem length_mismatch_not_two (L : Lib) (a p : List Value) (h2 : p.length ≠ 2)
    (h : a.length ≠ p.length) : _match L (.arr a) (.arr p) = ret false none := by
  rw [_match_arr, _matchSlice_arr]
  simp [h2, h]

/-- C1. The length test of `_matchSlice` is the `else` branch of `vY.Len() == 2`, so it is
skipped for every 2-element pattern array. A shorter document is compared on its own
indices only: `[1]` and `[]` match the positional pattern `[1, 2]`. A longer document makes
`vY.Index(2)` panic: `[1, 2, 3]` against `[1, 2]`. -/
theorem two_element_pattern_skips_length_test (L : Lib) :
    _match L (.arr [.num 1]) (.arr [.num 1, .num 2]) = ret true none ∧
    _match L (.arr []) (.arr [.num 1, .num 2]) = ret true none ∧
    _match L (.arr [.num 1, .num 2, .num 3]) (.arr [.num 1, .num 2]) = indexPanic := by
  refine ⟨?_, ?_, ?_⟩ <;>
    simp [_match, _matchSlice, _matchSliceLoop, Value.kind, Value.isValid, getMarker,
      _matchPrimitive, matchers, Value.asString, deepEqual]

/-! ## C2: superset tolerance -/

theorem lookup_map_replace (d : List (String × Value)) (k key : String) (x : Value)
    (h : key ≠ k) :
    (d.map (fun e => if e.1 == k then (k, x) else e)).lookup key = d.lookup key := by
  have hb : (key == k) = false := by simpa using h
  induction d with
  | nil => rfl
  | cons e rest ih =>
    obtain ⟨k', v⟩ := e
    rw [List.map_cons]
    by_cases hk : k' = k
    · subst hk
      rw [if_pos (by simp)]
      simp only [List.lookup, hb]
      exact ih
    · rw [if_neg (by simpa using hk)]
      simp only [List.lookup]
      rw [ih]

theorem lookup_append_single (d : List (String × Value)) (k key : String) (x : Value)
    (h : key ≠ k) : (d ++ [(k, x)]).lookup key = d.lookup key := by
  have hb : (key == k) = false := by simpa using h
  induction d with
  | nil => simp [List.lookup, hb]
  | cons e rest ih =>
    obtain ⟨k', v⟩ := e
    simp only [List.cons_append, List.lookup]
    split
    · rfl
    · exact ih

theorem lookup_setKey_of_ne (d : List (String × Value)) (k key : String) (x : Value)
    (h : key ≠ k) : (setKey d k x).lookup key = d.lookup key := by
  unfold setKey
  split
  · exact lookup_map_replace d k key x h
  · exact lookup_append_single d k key x h

theorem objectLoop_skip_map (L : Lib) (vY d : List (String × Value)) (k : String) (x : Value)
    (hk : vY.lookup k = none) (matched : Bool) :
    _matchMapCheckIteratingObjectLoop L vY
        (d.map (fun e => if e.1 == k then (k, x) else e)) matched =
      _matchMapCheckIteratingObjectLoop L vY d matched := by
  induction d generalizing matched with
  | nil => rfl
  | cons e rest ih =>
    obtain ⟨k', v⟩ := e
    rw [List.map_cons]
    by_cases h : k' = k
    · subst h
      rw [if_pos (by simp)]
      simp only [objectLoop_cons, hk]
      exact ih _
    · rw [if_neg (by simpa using h)]
      simp only [objectLoop_cons]
      split
      · exact ih _
      · split <;> first | rfl | exact ih _

theorem objectLoop_skip_append (L : Lib) (vY d : List (String × Value)) (k : String)
    (x : Value) (hk : vY.lookup k = none) (matched : Bool) :
    _matchMapCheckIteratingObjectLoop L vY (d ++ [(k, x)]) matched =
      _matchMapCheckIteratingObjectLoop L vY d matched := by
  induction d generalizing matched with
  | nil => simp [objectLoop_cons, objectLoop_nil, hk]
  | cons e rest ih =>
    obtain ⟨k', v⟩ := e
    simp only [List.cons_append, objectLoop_cons]
    split
    · exact ih _
    · split <;> first | rfl | exact ih _

/-- The second pass reads the document through `MapIndex` on the pattern's keys only. -/
theorem specLoop_congr (L : Lib) (vX vX' iterY : List (String × Value))
    (h : ∀ key ∈ iterY.map Prod.fst, vX'.lookup key = vX.lookup key) (matched : Bool) :
    _matchMapCheckIteratingSpecLoop L vX' iterY matched =
      _matchMapCheckIteratingSpecLoop L vX iterY matched := by
  induction iterY generalizing matched with
  | nil => rw [specLoop_nil, specLoop_nil]
  | cons e rest ih =>
    obtain ⟨key, y⟩ := e
    have hkey : vX'.lookup key = vX.lookup key := h key (by simp)
    have ih' := ih (fun key' hm => h key' (by simp [hm]))
    simp only [specLoop_cons, hkey, ih']

/-- C2. Superset tolerance. For every object document `d`, object pattern `p`, key `k` that
is not a key of `p` and value `x`, matching `d` with `k` set to `x` against `p` gives the
same result as matching `d` against `p` (same verdict, same error). -/
theorem superset_tolerance (L : Lib) (d p : List (String × Value)) (k : String) (x : Value)
    (hk : k ∉ p.map Prod.fst) :
    _match L (.obj (setKey d k x)) (.obj p) = _match L (.obj d) (.obj p) := by
  have hl : p.lookup k = none := (lookup_eq_none_iff k p).2 hk
  have h1 : _matchMapCheckIteratingObjectLoop L p (setKey d k x) true =
      _matchMapCheckIteratingObjectLoop L p d true := by
    unfold setKey
    split
    · exact objectLoop_skip_map L p d k x hl true
    · exact objectLoop_skip_append L p d k x hl true
  have h2 : _matchMapCheckIteratingSpecLoop L (setKey d k x) p true =
      _matchMapCheckIteratingSpecLoop L d p true := by
    apply specLoop_congr
    intro key hkey
    apply lookup_setKey_of_ne
    rintro rfl
    exact hk hkey
  rw [_match_obj, _match_obj, _matchMap_obj, _matchMap_obj, h1, h2]

theorem superset_tolerance_witness :
    "b" ∉ [("a", Value.num 1)].map Prod.fst ∧
    _match Lib.rejecting (.obj (setKey [("a", .num 1)] "b" (.num 2))) (.obj [("a", .num 1)]) =
      _match Lib.rejecting (.obj [("a", .num 1)]) (.obj [("a", .num 1)]) :=
  ⟨by decide, superset_tolerance Lib.rejecting [("a", .num 1)] [("a", .num 1)] "b" (.num 2)
    (by decide)⟩

/-! ## C3: a key required by the pattern -/

/-- Once `matches` is false the second pass cannot return a true verdict. -/
theorem specLoop_false (L : Lib) (vX iterY : List (String × Value)) :
    _matchMapCheckIteratingSpecLoop L vX iterY false = indexPanic ∨
      ∃ e, _matchMapCheckIteratingSpecLoop L vX iterY false = ret false e := by
  induction iterY with
  | nil => exact Or.inr ⟨none, specLoop_nil L vX false⟩
  | cons e rest ih =>
    obtain ⟨key, y⟩ := e
    rw [specLoop_cons]
    simp only [Bool.false_and]
    split_ifs
    · exact ih
    · exact ih
    · split
      · exact ih
      · split
        · exact Or.inl rfl
        · exact Or.inr ⟨_, rfl⟩
        · exact ih
    · exact ih

/-- An entry of the pattern whose key is missing from the document, and whose pattern is
neither `"#ignore"` nor `"#notpresent"`, makes the second pass fail. -/
theorem specLoop_missing_key (L : Lib) (vX iterY : List (String × Value)) (k : String)
    (pat : Value) (hmem : (k, pat) ∈ iterY) (habs : vX.lookup k = none)
    (hi : pat ≠ .str "#ignore") (hn : pat ≠ .str "#notpresent") (matched : Bool) :
    _matchMapCheckIteratingSpecLoop L vX iterY matched = indexPanic ∨
      ∃ e, _matchMapCheckIteratingSpecLoop L vX iterY matched = ret false e := by
  induction iterY generalizing matched with
  | nil => simp at hmem
  | cons e rest ih =>
    obtain ⟨key, y⟩ := e
    rw [specLoop_cons]
    rcases List.mem_cons.1 hmem with heq | hrest
    · obtain ⟨rfl, rfl⟩ := Prod.mk.inj heq
      have h1 : ¬ ((getMarker pat).1 = true ∧ (getMarker pat).2 = "#notpresent") := by
        rw [getMarker_eq_iff pat _ (by rfl)]; exact hn
      have h2 : isMarker pat ignoreMarker = false := by
        rw [Bool.eq_false_iff, Ne, isMarker_eq_true_iff pat _ (by rfl)]; exact hi
      rw [if_neg h1]
      simp only [habs, h2, Option.isSome_none, Bool.and_false, Bool.not_false, if_true]
      split_ifs <;> exact specLoop_false L vX rest
    · split_ifs
      · exact ih hrest _
      · exact ih hrest _
      · split
        · exact ih hrest _
        · split
          · exact Or.inl rfl
          · exact Or.inr ⟨_, rfl⟩
          · exact ih hrest _
      · exact ih hrest _

/-- What holds of a key required by the pattern. For every object document `d` and object
pattern `p`, if `p` has a key `k` that is absent from `d` and `p[k]` is neither `"#ignore"`
nor `"#notpresent"`, then `_match(d, p)` is never a true verdict: either it returns `false`
(with or without an error), or a nested array comparison runs into the out-of-range panic
and nothing is returned. -/
theorem required_key_must_exist (L : Lib) (d p : List (String × Value)) (k : String)
    (pat : Value) (hp : p.lookup k = some pat) (habs : k ∉ d.map Prod.fst)
    (hi : pat ≠ .str "#ignore") (hn : pat ≠ .str "#notpresent") :
    (∀ e, _match L (.obj d) (.obj p) ≠ ret true e) ∧
    (_match L (.obj d) (.obj p) = indexPanic ∨
      ∃ e, _match L (.obj d) (.obj p) = ret false e) := by
  have hmem : (k, pat) ∈ p := by
    clear hi hn habs
    induction p with
    | nil => simp at hp
    | cons e rest ih =>
      obtain ⟨k', v⟩ := e
      simp only [List.lookup] at hp
      split at hp
      · rename_i hkk
        have : k = k' := by simpa using hkk
        cases hp; subst this; simp
      · exact List.mem_cons_of_mem _ (ih hp)
  have hl : d.lookup k = none := (lookup_eq_none_iff k d).2 habs
  have key : _match L (.obj d) (.obj p) = indexPanic ∨
      ∃ e, _match L (.obj d) (.obj p) = ret false e := by
    rw [_match_obj, _matchMap_obj]
    split
    · exact Or.inl rfl
    · exact Or.inr ⟨_, rfl⟩
    · exact Or.inr ⟨_, rfl⟩
    · rcases specLoop_missing_key L d p k pat hmem hl hi hn true with h | ⟨e, h⟩
      · rw [h]; exact Or.inl rfl
      · rw [h]; cases e <;> exact Or.inr ⟨_, rfl⟩
  refine ⟨?_, key⟩
  intro e he
  rcases key with h | ⟨e', h⟩
  · rw [h] at he; cases he
  · rw [h] at he; cases he

theorem required_key_must_exist_witness :
    [("a", Value.num 1), ("b", Value.str "#present")].lookup "b" = some (Value.str "#present") ∧
    "b" ∉ [("a", Value.num 1)].map Prod.fst ∧
    ((∀ e, _match Lib.rejecting (.obj [("a", .num 1)])
        (.obj [("a", .num 1), ("b", .str "#present")]) ≠ ret true e) ∧
      (_match Lib.rejecting (.obj [("a", .num 1)])
          (.obj [("a", .num 1), ("b", .str "#present")]) = indexPanic ∨
        ∃ e, _match Lib.rejecting (.obj [("a", .num 1)])
          (.obj [("a", .num 1), ("b", .str "#present")]) = ret false e)) :=
  ⟨by simp [List.lookup], by decide,
    required_key_must_exist Lib.rejecting [("a", .num 1)]
      [("a", .num 1), ("b", .str "#present")] "b" (.str "#present") (by simp [List.lookup])
      (by decide) (by simp) (by simp)⟩

/-- C3. A key required by the pattern must exist, but the verdict is not always false. In
`\x7b"a": [1,2,3]\x7d` against `\x7b"a": [1,2], "b": 5\x7d` the key `"b"` is absent from the
document and `5` is neither `"#ignore"` nor `"#notpresent"`, yet `_match` returns no
verdict: the first pass compares the arrays under `"a"`, for which `_matchSlice` makes no
length test, and panics in `vY.Index(2)` before the second pass looks for `"b"`. The same
with the marker `"#present"` under the missing key. -/
theorem missing_key_verdict_preceded_by_panic (L : Lib) :
    [("a", Value.arr [.num 1, .num 2]), ("b", Value.num 5)].lookup "b" = some (.num 5) ∧
    "b" ∉ [("a", Value.arr [.num 1, .num 2, .num 3])].map Prod.fst ∧
    _match L (.obj [("a", .arr [.num 1, .num 2, .num 3])])
      (.obj [("a", .arr [.num 1, .num 2]), ("b", .num 5)]) = indexPanic ∧
    _match L (.obj [("a", .arr [.str "x", .str "y", .str "z"])])
      (.obj [("a", .arr [.str "#string", .str "#string"]), ("id", .str "#present")]) =
        indexPanic := by
  refine ⟨by simp [List.lookup], by decide, ?_, ?_⟩ <;>
    simp [_match, _matchSlice, _matchSliceLoop, _matchMap, _matchMapCheckIteratingObject,
      _matchMapCheckIteratingObjectLoop, List.lookup, Value.kind, Value.isValid, Value.isNil,
      getMarker, _matchPrimitive, matchers, Value.asString, deepEqual, hasHash,
      _matchWithSpecifier, splitN, List.span, List.span.loop, ignoreMarker, nullMarker,
      presentMarker]

/-! ## C5: the `#ignore` marker on a key -/

theorem lookup_removeKey_self (p : List (String × Value)) (k : String) :
    (removeKey p k).lookup k = none := by
  rw [lookup_eq_none_iff]
  simp [removeKey, List.mem_filter]

theorem lookup_removeKey_of_ne (p : List (String × Value)) (k key : String) (h : key ≠ k) :
    (removeKey p k).lookup key = p.lookup key := by
  unfold removeKey
  induction p with
  | nil => rfl
  | cons e rest ih =>
    obtain ⟨k', v⟩ := e
    by_cases hk : k' = k
    · subst hk
      have hb : (key == k') = false := by simpa using h
      rw [List.filter_cons_of_neg (by simp)]
      simp only [List.lookup, hb]
      exact ih
    · rw [List.filter_cons_of_pos (by simpa using hk)]
      simp only [List.lookup]
      split
      · rfl
      · exact ih

theorem objectLoop_removeKey (L : Lib) (p d : List (String × Value)) (k : String)
    (hk : p.lookup k = some (.str "#ignore")) (matched : Bool) :
    _matchMapCheckIteratingObjectLoop L (removeKey p k) d matched =
      _matchMapCheckIteratingObjectLoop L p d matched := by
  induction d generalizing matched with
  | nil => rw [objectLoop_nil, objectLoop_nil]
  | cons e rest ih =>
    obtain ⟨key, v⟩ := e
    rw [objectLoop_cons, objectLoop_cons]
    by_cases h : key = k
    · subst h
      simp only [lookup_removeKey_self, hk, _match_ignore, Bool.and_true]
      exact ih _
    · simp only [lookup_removeKey_of_ne p k key h, ih]

theorem specLoop_removeKey (L : Lib) (d iterY : List (String × Value)) (k : String)
    (h : ∀ v, (k, v) ∈ iterY → v = .str "#ignore") (matched : Bool) :
    _matchMapCheckIteratingSpecLoop L d (removeKey iterY k) matched =
      _matchMapCheckIteratingSpecLoop L d iterY matched := by
  induction iterY generalizing matched with
  | nil => rfl
  | cons e rest ih =>
    obtain ⟨key, y⟩ := e
    have ih' := ih (fun v hv => h v (List.mem_cons_of_mem _ hv))
    unfold removeKey at ih' ⊢
    by_cases hk : key = k
    · subst hk
      have hy : y = .str "#ignore" := h y (by simp)
      subst hy
      rw [List.filter_cons_of_neg (by simp), specLoop_cons, ih']
      simp [getMarker_str, hasHash, isMarker, presentMarker, ignoreMarker]
    · rw [List.filter_cons_of_pos (by simpa using hk)]
      simp only [specLoop_cons, ih']

theorem entry_eq_of_lookup (p : List (String × Value)) (k : String) (v w : Value)
    (hnodup : (p.map Prod.fst).Nodup) (hk : p.lookup k = some v) (hw : (k, w) ∈ p) :
    w = v := by
  induction p with
  | nil => simp at hw
  | cons e rest ih =>
    obtain ⟨k', u⟩ := e
    rw [List.map_cons, List.nodup_cons] at hnodup
    simp only [List.lookup] at hk
    rcases List.mem_cons.1 hw with heq | hrest
    · obtain ⟨rfl, rfl⟩ := Prod.mk.inj heq
      simpa using hk
    · have hne : k ≠ k' := by
        rintro rfl
        exact hnodup.1 (List.mem_map.2 ⟨(k, w), hrest, rfl⟩)
      have hb : (k == k') = false := by simpa using hne
      rw [hb] at hk
      exact ih hnodup.2 hk hrest

/-- C5. An `"#ignore"` pattern key never constrains the document. For every object document
`d` and object pattern `p` (a map: its keys are unique) with `p[k] = "#ignore"`,
`_match(d, p)` gives the same result as `_match(d, p with key k removed)`, whether `k` is
absent from `d`, present with any value, or present with `null`. -/
theorem ignore_key_never_constrains (L : Lib) (d p : List (String × Value)) (k : String)
    (hnodup : (p.map Prod.fst).Nodup) (hk : p.lookup k = some (.str "#ignore")) :
    _match L (.obj d) (.obj p) = _match L (.obj d) (.obj (removeKey p k)) := by
  rw [_match_obj, _match_obj, _matchMap_obj, _matchMap_obj, objectLoop_removeKey L p d k hk,
    specLoop_removeKey L d p k (fun v hv => entry_eq_of_lookup p k _ v hnodup hk hv)]

theorem ignore_key_never_constrains_witness :
    ([("key", Value.str "#ignore"), ("value", Value.num 5)].map Prod.fst).Nodup ∧
    [("key", Value.str "#ignore"), ("value", Value.num 5)].lookup "key" =
      some (Value.str "#ignore") ∧
    _match Lib.rejecting (.obj [("value", .num 5)])
        (.obj [("key", .str "#ignore"), ("value", .num 5)]) =
      _match Lib.rejecting (.obj [("value", .num 5)])
        (.obj (removeKey [("key", .str "#ignore"), ("value", .num 5)] "key")) :=
  ⟨by decide, by simp [List.lookup],
    ignore_key_never_constrains Lib.rejecting [("value", .num 5)]
      [("key", .str "#ignore"), ("value", .num 5)] "key" (by decide) (by simp [List.lookup])⟩

/-! ## Unknown and malformed markers -/

/-- On a non-null document, a marker whose name is not a case label of the switch falls
through to the final `unsupported specifier` error. -/
theorem _matchWithSpecifier_unsupported (L : Lib) (x : Value) (s : String)
    (hx : x ≠ .null) (hname : (splitN s).1 ∉ specifierTable) :
    _matchWithSpecifier L x s = ret false (some (.unsupportedSpecifier s)) := by
  have hnil : x.isNil = false := by cases x <;> simp [Value.isNil] at hx ⊢
  have hvalid : x.isValid = true := by cases x <;> simp [Value.isValid, Value.kind] at hx ⊢
  simp only [specifierTable, List.mem_cons, List.mem_singleton, List.not_mem_nil, or_false,
    not_or] at hname
  obtain ⟨h1, h2, h3, h4, h5, h6, h7, h8, h9, h10, h11, h12, h13, h14, h15, h16⟩ := hname
  unfold _matchWithSpecifier
  simp [hnil, hvalid, ignoreMarker, nullMarker, presentMarker, h1, h2, h3, h4, h5, h6, h7, h8,
    h9, h10, h11, h12, h13, h14, h15, h16]

theorem splitN_regex_arg (arg : String) : splitN ("#regex " ++ arg) = ("#regex", some arg) := by
  simp [splitN, List.span, List.span.loop]

theorem splitN_regex : splitN "#regex" = ("#regex", none) := by
  simp [splitN, List.span, List.span.loop]

/-! ## C6: the array-of sugar and documents longer than a 2-element pattern -/

/-- C6. The broadcast of `["#array-of", P]` calls `_match(a[i], P)` for each element, and
that call itself panics when `P` is a positional 2-element array and `a[i]` is a longer
array. With `a = [[1,2,3]]` and `P = [1,2]` no element result is an error, yet no
`(b, nil)` is returned; with `a = [[1,null,3],[1,2]]` and `P = [1,"#foo"]` the second
element result is an error, yet the panic of the first element is what happens. -/
theorem array_of_element_panic (L : Lib) :
    _match L (.arr [.num 1, .num 2, .num 3]) (.arr [.num 1, .num 2]) = indexPanic ∧
    _match L (.arr [.arr [.num 1, .num 2, .num 3]])
      (.arr [.str "#array-of", .arr [.num 1, .num 2]]) = indexPanic ∧
    _match L (.arr [.num 1, .num 2]) (.arr [.num 1, .str "#foo"]) =
      ret false (some (.sliceElement 1 (.unsupportedSpecifier "#foo"))) ∧
    _match L (.arr [.arr [.num 1, .null, .num 3], .arr [.num 1, .num 2]])
      (.arr [.str "#array-of", .arr [.num 1, .str "#foo"]]) = indexPanic := by
  refine ⟨?_, ?_, ?_, ?_⟩ <;>
    simp [_match, _matchSlice, _matchSliceLoop, Value.kind, Value.isValid, Value.isNil,
      getMarker, _matchPrimitive, matchers, Value.asString, deepEqual, hasHash,
      _matchWithSpecifier, splitN, List.span, List.span.loop, ignoreMarker, nullMarker,
      presentMarker]

/-! ## C7: `#array-of` in a pattern array of another length -/

theorem splitN_array_of : splitN "#array-of" = ("#array-of", none) := by
  simp [splitN, List.span, List.span.loop]

theorem _match_array_of_element (L : Lib) (x : Value) (hx : x ≠ .null) :
    _match L x (.str "#array-of") = ret false (some (.unsupportedSpecifier "#array-of")) := by
  rw [_match_marker L x _ (by rfl)]
  exact _matchWithSpecifier_unsupported L x _ hx (by decide)

/-- C7 as stated fails: `[1,2,3]` against `["#array-of", "#number", "extra"]` is not an
ordinary false verdict. The lengths are equal, the pattern is positional, and its first
element is evaluated as the marker `#array-of`, which is not a specifier. -/
theorem array_of_extra_arg_is_error :
    _match Lib.rejecting (.arr [.num 1, .num 2, .num 3])
        (.arr [.str "#array-of", .str "#number", .str "extra"]) =
      ret false (some (.sliceElement 0 (.unsupportedSpecifier "#array-of"))) := by
  simp [_match, _matchSlice, _matchSliceLoop, Value.kind, Value.isValid, Value.isNil,
    getMarker, matchers, Value.asString, hasHash, _matchWithSpecifier, splitN, List.span,
    List.span.loop, ignoreMarker, nullMarker, presentMarker]

/-- C7, amended. A pattern array whose first element is `"#array-of"` and whose length is not
2 is never a broadcast; it is matched positionally. A document array of another length gives
`(false, nil)`; a document array of the same length whose first element is not `null` gives
`false` with the error `unsupported specifier '#array-of'`. -/
theorem array_of_only_at_length_two (L : Lib) (a rest : List Value)
    (hlen : rest.length ≠ 1) :
    (a.length ≠ rest.length + 1 →
      _match L (.arr a) (.arr (.str "#array-of" :: rest)) = ret false none) ∧
    (a.length = rest.length + 1 → a.head? ≠ some .null →
      _match L (.arr a) (.arr (.str "#array-of" :: rest)) =
        ret false (some (.sliceElement 0 (.unsupportedSpecifier "#array-of")))) := by
  have h2 : (Value.str "#array-of" :: rest).length ≠ 2 := by simpa using hlen
  constructor
  · intro h
    exact length_mismatch_not_two L a _ h2 (by simpa using h)
  · intro h hhead
    rw [_match_arr, _matchSlice_arr, dif_neg h2, if_neg (by simpa using h), _matchSliceLoop_eq]
    cases a with
    | nil => simp at h
    | cons x xs =>
      have hx : x ≠ .null := by simpa using hhead
      simp [_match_array_of_element L x hx]

theorem array_of_only_at_length_two_witness :
    ([] : List Value).length ≠ 1 ∧
    _match Lib.rejecting (.arr [.num 7, .num 8]) (.arr [.str "#array-of"]) = ret false none ∧
    _match Lib.rejecting (.arr [.num 7]) (.arr [.str "#array-of"]) =
      ret false (some (.sliceElement 0 (.unsupportedSpecifier "#array-of"))) :=
  ⟨by decide,
    (array_of_only_at_length_two Lib.rejecting [.num 7, .num 8] [] (by decide)).1 (by decide),
    (array_of_only_at_length_two Lib.rejecting [.num 7] [] (by decide)).2 (by decide)
      (by simp)⟩

/-! ## C8: unknown markers -/

/-- C8 as stated fails on a `null` document: `_matchWithSpecifier` returns `(false, nil)` for
every marker other than `#ignore`, `#null`, `#present` before it looks at the marker name, so
`null` against the unknown marker `"#Ignore"` is an ordinary false verdict. -/
theorem unknown_marker_on_null_is_false :
    hasHash "#Ignore" = true ∧ (splitN "#Ignore").1 ∉ specifierTable ∧
    _match Lib.rejecting .null (.str "#Ignore") = ret false none := by
  refine ⟨by decide, by decide, ?_⟩
  rw [_match_marker _ _ _ (by rfl)]
  simp [_matchWithSpecifier, Value.isNil, Value.isValid, Value.kind, ignoreMarker, nullMarker,
    presentMarker]

/-- C8, amended. For every document value `v` other than `null` (boolean, number, string,
array or object) and every pattern string that begins with `#` and whose name, the text
before the first space, is not a marker of the specifier table, `_match(v, pattern)` returns
`false` with an `unsupported specifier` error. Names are compared exactly, so `"#Ignore"` is
unknown. -/
theorem unknown_marker_is_error (L : Lib) (v : Value) (s : String) (hv : v ≠ .null)
    (hs : hasHash s = true) (hname : (splitN s).1 ∉ specifierTable) :
    _match L v (.str s) = ret false (some (.unsupportedSpecifier s)) := by
  rw [_match_marker L v s hs]
  exact _matchWithSpecifier_unsupported L v s hv hname

theorem unknown_marker_is_error_witness :
    Value.num 5 ≠ .null ∧ hasHash "#Ignore" = true ∧
    (splitN "#Ignore").1 ∉ specifierTable ∧
    _match Lib.rejecting (.num 5) (.str "#Ignore") =
      ret false (some (.unsupportedSpecifier "#Ignore")) :=
  ⟨by simp, by decide, by decide,
    unknown_marker_is_error Lib.rejecting (.num 5) "#Ignore" (by simp) (by decide)
      (by decide)⟩

/-! ## C9: malformed `#regex` markers -/

/-- C9 as stated fails on a `null` document: `"#regex"` without argument, and `"#regex "`
followed by text that does not compile, both give `(false, nil)`. -/
theorem malformed_regex_on_null_is_false :
    _match Lib.rejecting .null (.str "#regex") = ret false none ∧
    Lib.rejecting.regexpCompile "+*\x7b3a" = none ∧
    _match Lib.rejecting .null (.str "#regex +*\x7b3a") = ret false none := by
  refine ⟨?_, rfl, ?_⟩ <;>
  · rw [_match_marker _ _ _ (by rfl)]
    simp [_matchWithSpecifier, Value.isNil, Value.isValid, Value.kind, ignoreMarker,
      nullMarker, presentMarker]

/-- C9, amended. A malformed `#regex` marker is an error, not a false verdict, on every
document value `v` other than `null`: the pattern `"#regex"` with no argument gives the
error `expected exactly one argument`, and `"#regex "` followed by text that does not
compile gives the error `invalid regex argument`. -/
theorem malformed_regex_is_error (L : Lib) (v : Value) (hv : v ≠ .null) :
    _match L v (.str "#regex") = ret false (some .regexArgument) ∧
    ∀ arg, L.regexpCompile arg = none →
      _match L v (.str ("#regex " ++ arg)) = ret false (some (.regexInvalid arg)) := by
  have hnil : v.isNil = false := by cases v <;> simp [Value.isNil] at hv ⊢
  have hvalid : v.isValid = true := by cases v <;> simp [Value.isValid, Value.kind] at hv ⊢
  constructor
  · rw [_match_marker L v _ (by rfl)]
    simp [_matchWithSpecifier, hnil, hvalid, splitN_regex, ignoreMarker, nullMarker,
      presentMarker]
  · intro arg harg
    have hh : hasHash ("#regex " ++ arg) = true := by simp [hasHash]
    rw [_match_marker L v _ hh]
    simp [_matchWithSpecifier, hnil, hvalid, splitN_regex_arg, ignoreMarker, nullMarker,
      presentMarker, harg]

theorem malformed_regex_is_error_witness :
    Value.str "This is fun" ≠ .null ∧
    _match Lib.rejecting (.str "This is fun") (.str "#regex") =
      ret false (some .regexArgument) ∧
    _match Lib.rejecting (.str "This is fun") (.str ("#regex " ++ "+*\x7b3a")) =
      ret false (some (.regexInvalid "+*\x7b3a")) :=
  ⟨by simp, (malformed_regex_is_error Lib.rejecting (.str "This is fun") (by simp)).1,
    (malformed_regex_is_error Lib.rejecting (.str "This is fun") (by simp)).2 "+*\x7b3a" rfl⟩

/-! ## C10: errors and the out-of-range panic -/

/-- C10. An element error is reported only if the loop reaches it. In the positional regime,
with `a = [[1,2,3], 5]` and `p = [[1,2], "#foo"]` (equal lengths), `_match(a[1], p[1])` is an
error, but `_match(a[0], p[0])` panics first. The same happens in the first pass over an
object when the key holding the longer array is visited before the key with the bad
marker. -/
theorem error_preceded_by_panic (L : Lib) :
    _match L (.num 5) (.str "#foo") = ret false (some (.unsupportedSpecifier "#foo")) ∧
    _match L (.arr [.arr [.num 1, .num 2, .num 3], .num 5])
      (.arr [.arr [.num 1, .num 2], .str "#foo"]) = indexPanic ∧
    _match L (.obj [("a", .arr [.num 1, .num 2, .num 3]), ("b", .num 5)])
      (.obj [("a", .arr [.num 1, .num 2]), ("b", .str "#foo")]) = indexPanic := by
  refine ⟨?_, ?_, ?_⟩ <;>
    simp [_match, _matchSlice, _matchSliceLoop, _matchMap, _matchMapCheckIteratingObject,
      _matchMapCheckIteratingObjectLoop, List.lookup, Value.kind, Value.isValid, Value.isNil,
      getMarker, _matchPrimitive, matchers, Value.asString, deepEqual, hasHash,
      _matchWithSpecifier, splitN, List.span, List.span.loop, ignoreMarker, nullMarker,
      presentMarker]

/-! ## What the loops do when every element call returns -/

/-- The broadcast loop from index `i`, when no element call panics: an element error makes the
loop return an error, and without element errors the loop returns the conjunction. -/
theorem sliceLoop_array_of (L : Lib) (vX vY : List Value) (P : Value) :
    ∀ (n i : Nat) (matched : Bool), vX.length - i = n →
      (∀ x ∈ vX.drop i, _match L x P ≠ indexPanic) →
      ((∃ x ∈ vX.drop i, (_match L x P).isError = true) →
        (_matchSliceLoop L vX vY true P i matched).isError = true) ∧
      ((∀ x ∈ vX.drop i, (_match L x P).isError = false) →
        _matchSliceLoop L vX vY true P i matched =
          ret (matched && (vX.drop i).all fun x => decide (_match L x P = ret true none))
            none) := by
  intro n
  induction n with
  | zero =>
    intro i matched hn _
    have hi : vX.length ≤ i := by omega
    rw [_matchSliceLoop_eq, dif_neg (by omega), List.drop_eq_nil_of_le hi]
    simp
  | succ n ih =>
    intro i matched hn hret
    have hi : i < vX.length := by omega
    have hdrop : vX.drop i = vX[i] :: vX.drop (i + 1) := List.drop_eq_getElem_cons hi
    rw [hdrop] at hret ⊢
    have hhead := hret vX[i] (List.mem_cons_self _ _)
    have htail : ∀ x ∈ vX.drop (i + 1), _match L x P ≠ indexPanic :=
      fun x hx => hret x (List.mem_cons_of_mem _ hx)
    rw [_matchSliceLoop_eq, dif_pos hi]
    simp only [if_true]
    cases hm : _match L vX[i] P with
    | indexPanic => exact absurd hm hhead
    | ret b err =>
      cases err with
      | some e =>
        refine ⟨fun _ => rfl, fun hno => ?_⟩
        have := hno vX[i] (List.mem_cons_self _ _)
        rw [hm] at this
        simp [Outcome.isError] at this
      | none =>
        have ih' := ih (i + 1) (matched && b) (by omega) htail
        refine ⟨fun ⟨x, hx, hxe⟩ => ?_, fun hno => ?_⟩
        · rcases List.mem_cons.1 hx with rfl | hx'
          · rw [hm] at hxe
            simp [Outcome.isError] at hxe
          · exact ih'.1 ⟨x, hx', hxe⟩
        · have := ih'.2 (fun x hx => hno x (List.mem_cons_of_mem _ hx))
          simp only [this, List.all_cons, hm]
          cases b <;> simp

/-- The array-of sugar broadcasts one element pattern, provided every element call returns:
an error for some element gives an error, otherwise the result is `(b, nil)` with `b` the
conjunction of the element verdicts. The empty array matches. -/
theorem array_of_broadcast_when_elements_return (L : Lib) (a : List Value) (P : Value)
    (hret : ∀ x ∈ a, _match L x P ≠ indexPanic) :
    ((∃ x ∈ a, (_match L x P).isError = true) →
      (_match L (.arr a) (.arr [.str "#array-of", P])).isError = true) ∧
    ((∀ x ∈ a, (_match L x P).isError = false) →
      _match L (.arr a) (.arr [.str "#array-of", P]) =
        ret (a.all fun x => decide (_match L x P = ret true none)) none) := by
  have h := sliceLoop_array_of L a [.str "#array-of", P] P a.length 0 true (by simp)
    (by simpa using hret)
  have heq : _match L (.arr a) (.arr [.str "#array-of", P]) =
      _matchSliceLoop L a [.str "#array-of", P] true P 0 true := by
    rw [_match_arr, _matchSlice_arr]
    simp [getMarker_str, hasHash]
  rw [heq]
  simpa using h

/-- The positional loop from index `i` over arrays of equal length, when no element call
before the first error panics: an element error makes the loop return an error. -/
theorem sliceLoop_positional_error (L : Lib) (vX vY : List Value) (hlen : vX.length = vY.length) :
    ∀ (n i : Nat) (matched : Bool), vX.length - i = n →
      (∀ (j : Nat) (hx : j < vX.length) (hy : j < vY.length), i ≤ j →
        _match L vX[j] vY[j] ≠ indexPanic) →
      (∃ (j : Nat) (hx : j < vX.length) (hy : j < vY.length), i ≤ j ∧
        (_match L vX[j] vY[j]).isError = true) →
      (_matchSliceLoop L vX vY false .null i matched).isError = true := by
  intro n
  induction n with
  | zero =>
    intro i matched hn _ ⟨j, hx, _, hij, _⟩
    omega
  | succ n ih =>
    intro i matched hn hret ⟨j, hx, hy, hij, hje⟩
    have hi : i < vX.length := by omega
    have hi' : i < vY.length := by omega
    rw [_matchSliceLoop_eq, dif_pos hi]
    simp only [Bool.false_eq_true, if_false, List.getElem?_eq_getElem hi']
    have hhead := hret i hi hi' (Nat.le_refl i)
    cases hm : _match L vX[i] vY[i] with
    | indexPanic => exact absurd hm hhead
    | ret b err =>
      cases err with
      | some e => rfl
      | none =>
        have hne : i ≠ j := by
          rintro rfl
          rw [hm] at hje
          simp [Outcome.isError] at hje
        exact ih (i + 1) (matched && b) (by omega)
          (fun j' hx' hy' hij' => hret j' hx' hy' (by omega))
          ⟨j, hx, hy, by omega, hje⟩

/-- Errors dominate mismatches in the positional regime, provided every element call
returns: for arrays of equal length that are not of the sugar shape, an element error gives
`_match` an error result (whose boolean is `false`). -/
theorem positional_error_when_elements_return (L : Lib) (a p : List Value)
    (hlen : a.length = p.length) (hsugar : ¬ isArrayOfSugar p)
    (hret : ∀ (j : Nat) (hx : j < a.length) (hy : j < p.length),
      _match L a[j] p[j] ≠ indexPanic)
    (herr : ∃ (j : Nat) (hx : j < a.length) (hy : j < p.length),
      (_match L a[j] p[j]).isError = true) :
    (_match L (.arr a) (.arr p)).isError = true := by
  have hloop : (_matchSliceLoop L a p false .null 0 true).isError = true := by
    obtain ⟨j, hx, hy, hje⟩ := herr
    exact sliceLoop_positional_error L a p hlen a.length 0 true (by simp)
      (fun j hx hy _ => hret j hx hy) ⟨j, hx, hy, Nat.zero_le j, hje⟩
  rw [_match_arr, _matchSlice_arr]
  split
  · rename_i h2
    have hnot : ¬ ((getMarker p[0]).1 = true ∧ (getMarker p[0]).2 = "#array-of") := by
      rw [getMarker_eq_iff _ _ (by rfl)]
      intro h0
      apply hsugar
      refine ⟨h2, ?_⟩
      cases p with
      | nil => simp at h2
      | cons y ys => simpa using h0
    rw [if_neg hnot]
    exact hloop
  · rw [if_neg (by simpa using hlen)]
    exact hloop

/-- The first pass over the document's keys, when no call on a shared key panics: an error
on a key present in both makes the pass return an error. -/
theorem objectLoop_error (L : Lib) (vY iterX : List (String × Value)) (matched : Bool)
    (hret : ∀ key v y, (key, v) ∈ iterX → vY.lookup key = some y → _match L v y ≠ indexPanic)
    (herr : ∃ key v y, (key, v) ∈ iterX ∧ vY.lookup key = some y ∧
      (_match L v y).isError = true) :
    (_matchMapCheckIteratingObjectLoop L vY iterX matched).isError = true := by
  induction iterX generalizing matched with
  | nil =>
    obtain ⟨_, _, _, hmem, _⟩ := herr
    simp at hmem
  | cons e rest ih =>
    obtain ⟨k', v'⟩ := e
    have hret' : ∀ key v y, (key, v) ∈ rest → vY.lookup key = some y →
        _match L v y ≠ indexPanic :=
      fun key v y hm => hret key v y (List.mem_cons_of_mem _ hm)
    rw [objectLoop_cons]
    cases hl : vY.lookup k' with
    | none =>
      obtain ⟨key, v, y, hmem, hy, he⟩ := herr
      rcases List.mem_cons.1 hmem with heq | hrest
      · obtain ⟨rfl, rfl⟩ := Prod.mk.inj heq
        rw [hl] at hy
        cases hy
      · exact ih _ hret' ⟨key, v, y, hrest, hy, he⟩
    | some y' =>
      have hhead := hret k' v' y' (List.mem_cons_self _ _) hl
      simp only []
      cases hm : _match L v' y' with
      | indexPanic => exact absurd hm hhead
      | ret b err =>
        cases err with
        | some e => rfl
        | none =>
          simp only []
          obtain ⟨key, v, y, hmem, hy, he⟩ := herr
          rcases List.mem_cons.1 hmem with heq | hrest
          · obtain ⟨rfl, rfl⟩ := Prod.mk.inj heq
            rw [hl] at hy
            cases hy
            rw [hm] at he
            simp [Outcome.isError] at he
          · exact ih _ hret' ⟨key, v, y, hrest, hy, he⟩

/-- Errors dominate mismatches in objects, provided every call on a shared key returns: an
error on a key present in both gives `_match` an error result (whose boolean is `false`). -/
theorem object_error_when_elements_return (L : Lib) (d p : List (String × Value))
    (hret : ∀ key v y, (key, v) ∈ d → p.lookup key = some y → _match L v y ≠ indexPanic)
    (herr : ∃ key v y, (key, v) ∈ d ∧ p.lookup key = some y ∧ (_match L v y).isError = true) :
    (_match L (.obj d) (.obj p)).isError = true := by
  have h := objectLoop_error L p d true hret herr
  rw [_match_obj, _matchMap_obj]
  cases hm : _matchMapCheckIteratingObjectLoop L p d true with
  | indexPanic => rw [hm] at h; simp [Outcome.isError] at h
  | ret b err =>
    cases err with
    | some e => cases b <;> rfl
    | none => rw [hm] at h; simp [Outcome.isError] at h

/-! ## C12: primitives -/

/-- C12. Primitives are compared by exact equality. Two booleans, two numbers, and two
strings of which the pattern does not begin with `#`, match exactly when they are equal,
and the result carries no error. -/
theorem primitives_compare_by_equality (L : Lib) :
    (∀ a b : Bool, _match L (.bool a) (.bool b) = ret (a == b) none) ∧
    (∀ a b : ℚ, _match L (.num a) (.num b) = ret (a == b) none) ∧
    (∀ a b : String, hasHash b = false →
      _match L (.str a) (.str b) = ret (a == b) none) := by
  refine ⟨fun a b => ?_, fun a b => ?_, fun a b hb => ?_⟩ <;> rw [_match] <;>
    simp [Value.isValid, Value.kind, getMarker, Value.asString, matchers, _matchPrimitive,
      deepEqual, *]

/-! ## C13: kinds -/

/-- C13. Kind comparison precedes value comparison. For every document value `v` and every
pattern `p` that is not a marker string, if `v` and `p` are of different kinds (`null`
counted as a kind of its own), `_match(v, p)` returns `(false, nil)`. -/
theorem different_kinds_do_not_match (L : Lib) (v p : Value)
    (hp : (getMarker p).1 = false) (hk : v.kind ≠ p.kind) :
    _match L v p = ret false none := by
  rw [_match]
  cases p <;> cases v <;>
    simp_all [Value.isValid, Value.kind, matchers, _matchZero]

theorem different_kinds_do_not_match_witness :
    (getMarker (.str "hello")).1 = false ∧
    (Value.arr [.bool true, .num 42]).kind ≠ (Value.str "hello").kind ∧
    _match Lib.rejecting (.arr [.bool true, .num 42]) (.str "hello") = ret false none :=
  ⟨by decide, by decide,
    different_kinds_do_not_match Lib.rejecting (.arr [.bool true, .num 42]) (.str "hello")
      (by decide) (by decide)⟩

/-! ## C14: `#ignore` -/

/-- C14. The marker `"#ignore"` accepts everything: for every document value `v`, `null`,
arrays and objects included, `_match(v, "#ignore")` returns `(true, nil)`. -/
theorem ignore_accepts_everything (L : Lib) (v : Value) :
    _match L v (.str "#ignore") = ret true none :=
  _match_ignore L v

/-! ## C15: `#null` and `#notnull` -/

theorem splitN_null : splitN "#null" = ("#null", none) := by
  simp [splitN, List.span, List.span.loop]

theorem splitN_notnull : splitN "#notnull" = ("#notnull", none) := by
  simp [splitN, List.span, List.span.loop]

/-- C15. The markers `"#null"` and `"#notnull"` are exact complements: `_match(v, "#null")`
returns `(true, nil)` if `v` is `null` and `(false, nil)` otherwise, and
`_match(v, "#notnull")` returns the opposite verdict, also without error. -/
theorem null_and_notnull_are_complements (L : Lib) (v : Value) :
    _match L v (.str "#null") = ret v.isNil none ∧
    _match L v (.str "#notnull") = ret (!v.isNil) none := by
  constructor
  · rw [_match_marker L v _ (by rfl)]
    cases v <;>
      simp [_matchWithSpecifier, Value.isNil, Value.isValid, Value.kind, splitN_null,
        ignoreMarker, nullMarker, presentMarker]
  · rw [_match_marker L v _ (by rfl)]
    cases v <;>
      simp [_matchWithSpecifier, Value.isNil, Value.isValid, Value.kind, splitN_notnull,
        ignoreMarker, nullMarker, presentMarker]

/-! ## C16: the null short-circuit -/

/-- C16 as stated fails: the short-circuit compares the whole pattern string with the three
marker constants, before the string is split. The marker `"#ignore foo"` has the name
`"#ignore"`, and a `null` document against it is `(false, nil)`; likewise for `"#null x"`
and `"#present x"`. -/
theorem null_short_circuit_needs_exact_marker :
    (splitN "#ignore foo").1 = "#ignore" ∧
    _match Lib.rejecting .null (.str "#ignore foo") = ret false none ∧
    _match Lib.rejecting .null (.str "#null x") = ret false none ∧
    _match Lib.rejecting .null (.str "#present x") = ret false none := by
  refine ⟨by decide, ?_, ?_, ?_⟩ <;>
  · rw [_match_marker _ _ _ (by rfl)]
    simp [_matchWithSpecifier, Value.isNil, Value.isValid, Value.kind, ignoreMarker,
      nullMarker, presentMarker]

/-- C16, amended. The null short-circuit applies to the exact marker strings: for a `null`
document value and the pattern strings `"#ignore"`, `"#null"` and `"#present"`, written
without a trailing argument, evaluation returns `(true, nil)`. -/
theorem null_short_circuit (L : Lib) :
    _match L .null (.str "#ignore") = ret true none ∧
    _match L .null (.str "#null") = ret true none ∧
    _match L .null (.str "#present") = ret true none := by
  refine ⟨?_, ?_, ?_⟩ <;>
  · rw [_match_marker _ _ _ (by rfl)]
    simp [_matchWithSpecifier, Value.isNil, ignoreMarker, nullMarker, presentMarker]

/-! ## C17: type markers -/

theorem splitN_array : splitN "#array" = ("#array", none) := by
  simp [splitN, List.span, List.span.loop]

theorem splitN_object : splitN "#object" = ("#object", none) := by
  simp [splitN, List.span, List.span.loop]

theorem splitN_number : splitN "#number" = ("#number", none) := by
  simp [splitN, List.span, List.span.loop]

theorem splitN_string : splitN "#string" = ("#string", none) := by
  simp [splitN, List.span, List.span.loop]

theorem splitN_boolean : splitN "#boolean" = ("#boolean", none) := by
  simp [splitN, List.span, List.span.loop]

theorem splitN_bool : splitN "#bool" = ("#bool", none) := by
  simp [splitN, List.span, List.span.loop]

/-- C17. Type markers test the value's kind and nothing else: `"#array"`, `"#object"`,
`"#number"`, `"#string"` and `"#boolean"` return `(true, nil)` exactly on arrays, objects,
numbers, strings and booleans (empty ones included) and `(false, nil)` on every other
value, `null` included; `"#bool"` gives the same result as `"#boolean"`. -/
theorem type_markers_test_the_kind (L : Lib) (v : Value) :
    _match L v (.str "#array") = ret v.isArr none ∧
    _match L v (.str "#object") = ret v.isObj none ∧
    _match L v (.str "#number") = ret v.isNum none ∧
    _match L v (.str "#string") = ret v.isStr none ∧
    _match L v (.str "#boolean") = ret v.isBool none ∧
    _match L v (.str "#bool") = _match L v (.str "#boolean") := by
  have hb : _match L v (.str "#boolean") = ret v.isBool none := by
    rw [_match_marker L v _ (by rfl)]
    cases v <;>
      simp [_matchWithSpecifier, Value.isNil, Value.isValid, Value.kind, splitN_boolean,
        ignoreMarker, nullMarker, presentMarker, Value.isBool]
  refine ⟨?_, ?_, ?_, ?_, hb, ?_⟩
  · rw [_match_marker L v _ (by rfl)]
    cases v <;>
      simp [_matchWithSpecifier, Value.isNil, Value.isValid, Value.kind, splitN_array,
        ignoreMarker, nullMarker, presentMarker, Value.isArr]
  · rw [_match_marker L v _ (by rfl)]
    cases v <;>
      simp [_matchWithSpecifier, Value.isNil, Value.isValid, Value.kind, splitN_object,
        ignoreMarker, nullMarker, presentMarker, Value.isObj]
  · rw [_match_marker L v _ (by rfl)]
    cases v <;>
      simp [_matchWithSpecifier, Value.isNil, Value.isValid, Value.kind, splitN_number,
        ignoreMarker, nullMarker, presentMarker, Value.isNum]
  · rw [_match_marker L v _ (by rfl)]
    cases v <;>
      simp [_matchWithSpecifier, Value.isNil, Value.isValid, Value.kind, splitN_string,
        ignoreMarker, nullMarker, presentMarker, Value.isStr]
  · rw [hb, _match_marker L v _ (by rfl)]
    cases v <;>
      simp [_matchWithSpecifier, Value.isNil, Value.isValid, Value.kind, splitN_bool,
        ignoreMarker, nullMarker, presentMarker, Value.isBool]

/-! ## C18: string-format markers on other kinds -/

theorem splitN_date : splitN "#date" = ("#date", none) := by
  simp [splitN, List.span, List.span.loop]

theorem splitN_datetime : splitN "#datetime" = ("#datetime", none) := by
  simp [splitN, List.span, List.span.loop]

theorem splitN_uuid : splitN "#uuid" = ("#uuid", none) := by
  simp [splitN, List.span, List.span.loop]

theorem splitN_uuid_v4 : splitN "#uuid-v4" = ("#uuid-v4", none) := by
  simp [splitN, List.span, List.span.loop]

/-- C18. String-format markers reject non-strings without error: for every document value
`v` that is not a string (`null`, boolean, number, array or object), the markers `"#date"`,
`"#datetime"`, `"#uuid"`, `"#uuid-v4"`, and `"#regex "` followed by a pattern that compiles,
return `(false, nil)`. -/
theorem string_markers_reject_other_kinds (L : Lib) (v : Value) (hv : v.isStr = false) :
    _match L v (.str "#date") = ret false none ∧
    _match L v (.str "#datetime") = ret false none ∧
    _match L v (.str "#uuid") = ret false none ∧
    _match L v (.str "#uuid-v4") = ret false none ∧
    ∀ arg r, L.regexpCompile arg = some r →
      _match L v (.str ("#regex " ++ arg)) = ret false none := by
  refine ⟨?_, ?_, ?_, ?_, fun arg r hr => ?_⟩
  · rw [_match_marker L v _ (by rfl)]
    cases v <;>
      simp [_matchWithSpecifier, Value.isNil, Value.isValid, Value.kind, splitN_date,
        ignoreMarker, nullMarker, presentMarker, Value.isStr] at hv ⊢
  · rw [_match_marker L v _ (by rfl)]
    cases v <;>
      simp [_matchWithSpecifier, Value.isNil, Value.isValid, Value.kind, splitN_datetime,
        ignoreMarker, nullMarker, presentMarker, Value.isStr] at hv ⊢
  · rw [_match_marker L v _ (by rfl)]
    cases v <;>
      simp [_matchWithSpecifier, Value.isNil, Value.isValid, Value.kind, splitN_uuid,
        ignoreMarker, nullMarker, presentMarker, Value.isStr] at hv ⊢
  · rw [_match_marker L v _ (by rfl)]
    cases v <;>
      simp [_matchWithSpecifier, Value.isNil, Value.isValid, Value.kind, splitN_uuid_v4,
        ignoreMarker, nullMarker, presentMarker, Value.isStr] at hv ⊢
  · have hh : hasHash ("#regex " ++ arg) = true := by simp [hasHash]
    have hne : ∀ t, splitN t = (t, none) → "#regex " ++ arg ≠ t := by
      intro t ht h
      have h2 := splitN_regex_arg arg
      rw [h, ht] at h2
      simp at h2
    have h1 := hne _ splitN_ignore
    have h2 := hne _ splitN_null
    have h3 := hne _ splitN_present
    rw [_match_marker L v _ hh]
    cases v <;>
      simp [_matchWithSpecifier, Value.isNil, Value.isValid, Value.kind, splitN_regex_arg,
        ignoreMarker, nullMarker, presentMarker, Value.isStr, hr, h1, h2, h3] at hv ⊢

theorem string_markers_reject_other_kinds_witness :
    (Value.num 2012).isStr = false ∧
    _match Lib.permissive (.num 2012) (.str "#date") = ret false none ∧
    Lib.permissive.regexpCompile "^This is [a-z]+$" = some (fun _ => true) ∧
    _match Lib.permissive (.num 2012) (.str ("#regex " ++ "^This is [a-z]+$")) =
      ret false none :=
  ⟨rfl, (string_markers_reject_other_kinds Lib.permissive (.num 2012) rfl).1, rfl,
    (string_markers_reject_other_kinds Lib.permissive (.num 2012) rfl).2.2.2.2
      "^This is [a-z]+$" _ rfl⟩

/-! ## C11: reflexivity on literals -/

theorem getMarker_of_literal (y : Value) (h : literal y = true) : (getMarker y).1 = false := by
  cases y <;> simp_all [getMarker, Value.asString, literal]

theorem literal_of_mem_slice {xs : List Value} (h : literalSlice xs = true) :
    ∀ x ∈ xs, literal x = true := by
  induction xs with
  | nil => simp
  | cons y ys ih =>
    simp only [literalSlice, Bool.and_eq_true] at h
    intro x hx
    rcases List.mem_cons.1 hx with rfl | hx'
    · exact h.1
    · exact ih h.2 x hx'

theorem literal_of_mem_map {kvs : List (String × Value)} (h : literalMap kvs = true) :
    ∀ k v, (k, v) ∈ kvs → literal v = true := by
  induction kvs with
  | nil => simp
  | cons e rest ih =>
    obtain ⟨k', v'⟩ := e
    simp only [literalMap, Bool.and_eq_true] at h
    intro k v hm
    rcases List.mem_cons.1 hm with heq | hm'
    · obtain ⟨rfl, rfl⟩ := Prod.mk.inj heq
      exact h.1
    · exact ih h.2 k v hm'

theorem uniqueKeys_of_mem_slice {xs : List Value} (h : uniqueKeysSlice xs = true) :
    ∀ x ∈ xs, uniqueKeys x = true := by
  induction xs with
  | nil => simp
  | cons y ys ih =>
    simp only [uniqueKeysSlice, Bool.and_eq_true] at h
    intro x hx
    rcases List.mem_cons.1 hx with rfl | hx'
    · exact h.1
    · exact ih h.2 x hx'

theorem uniqueKeys_of_mem_map {kvs : List (String × Value)} (h : uniqueKeysMap kvs = true) :
    ∀ k v, (k, v) ∈ kvs → uniqueKeys v = true := by
  induction kvs with
  | nil => simp
  | cons e rest ih =>
    obtain ⟨k', v'⟩ := e
    simp only [uniqueKeysMap, Bool.and_eq_true] at h
    intro k v hm
    rcases List.mem_cons.1 hm with heq | hm'
    · obtain ⟨rfl, rfl⟩ := Prod.mk.inj heq
      exact h.1
    · exact ih h.2 k v hm'

theorem lookup_of_mem_nodup (p : List (String × Value)) (k : String) (v : Value)
    (hnodup : (p.map Prod.fst).Nodup) (hm : (k, v) ∈ p) : p.lookup k = some v := by
  have hs : (p.lookup k).isSome = true :=
    (lookup_isSome_iff k p).2 (List.mem_map.2 ⟨(k, v), hm, rfl⟩)
  cases hl : p.lookup k with
  | none => rw [hl] at hs; simp at hs
  | some w => rw [entry_eq_of_lookup p k w v hnodup hl hm]

theorem sizeOf_lt_of_mem_map {kvs : List (String × Value)} {k : String} {v : Value}
    (hm : (k, v) ∈ kvs) : sizeOf v < sizeOf kvs := by
  have h1 := List.sizeOf_lt_of_mem hm
  have h2 : sizeOf (k, v) = 1 + sizeOf k + sizeOf v := rfl
  omega

/-- The positional loop over a pattern equal to the document, when every element matches
itself. -/
theorem sliceLoop_self (L : Lib) (xs : List Value)
    (h : ∀ x ∈ xs, _match L x x = ret true none) :
    ∀ (n i : Nat) (matched : Bool), xs.length - i = n →
      _matchSliceLoop L xs xs false .null i matched = ret matched none := by
  intro n
  induction n with
  | zero =>
    intro i matched hn
    rw [_matchSliceLoop_eq, dif_neg (by omega)]
  | succ n ih =>
    intro i matched hn
    have hi : i < xs.length := by omega
    rw [_matchSliceLoop_eq, dif_pos hi]
    simp only [Bool.false_eq_true, if_false, List.getElem?_eq_getElem hi,
      h xs[i] (List.getElem_mem hi), Bool.and_true]
    exact ih (i + 1) matched (by omega)

/-- The first pass, when every document entry with a pattern entry matches it. -/
theorem objectLoop_all_true (L : Lib) (vY iterX : List (String × Value)) (matched : Bool)
    (h : ∀ key v y, (key, v) ∈ iterX → vY.lookup key = some y →
      _match L v y = ret true none) :
    _matchMapCheckIteratingObjectLoop L vY iterX matched = ret matched none := by
  induction iterX generalizing matched with
  | nil => rw [objectLoop_nil]
  | cons e rest ih =>
    obtain ⟨k', v'⟩ := e
    have ih' := fun m => ih m (fun key v y hm => h key v y (List.mem_cons_of_mem _ hm))
    rw [objectLoop_cons]
    cases hl : vY.lookup k' with
    | none => exact ih' _
    | some y' =>
      simp only [h k' v' y' (List.mem_cons_self _ _) hl, Bool.and_true]
      exact ih' _

/-- The second pass, when no pattern entry is a marker and every pattern entry is matched
by the document's value for its key. -/
theorem specLoop_all_true (L : Lib) (vX iterY : List (String × Value)) (matched : Bool)
    (h : ∀ key y, (key, y) ∈ iterY → (getMarker y).1 = false ∧
      ∃ x, vX.lookup key = some x ∧ _match L x y = ret true none) :
    _matchMapCheckIteratingSpecLoop L vX iterY matched = ret matched none := by
  induction iterY generalizing matched with
  | nil => rw [specLoop_nil]
  | cons e rest ih =>
    obtain ⟨k', y'⟩ := e
    have ih' := fun m => ih m (fun key y hm => h key y (List.mem_cons_of_mem _ hm))
    obtain ⟨hmk, x, hx, hxy⟩ := h k' y' (List.mem_cons_self _ _)
    rw [specLoop_cons]
    simp only [hmk, isMarker, Bool.false_and, Bool.false_eq_true, false_and, if_false,
      Bool.not_false, if_true, hx, hxy, Bool.and_true]
    exact ih' _

theorem match_self_of_size (L : Lib) :
    ∀ (n : Nat) (v : Value), sizeOf v ≤ n → literal v = true → uniqueKeys v = true →
      _match L v v = ret true none := by
  intro n
  induction n with
  | zero =>
    intro v hs
    cases v <;> simp at hs
  | succ n ih =>
    intro v hs hlit huniq
    cases v with
    | null => rw [_match]; simp [Value.isValid, Value.kind, _matchZero]
    | bool b =>
      rw [_match]
      simp [Value.isValid, Value.kind, getMarker, Value.asString, matchers, _matchPrimitive,
        deepEqual]
    | num q =>
      rw [_match]
      simp [Value.isValid, Value.kind, getMarker, Value.asString, matchers, _matchPrimitive,
        deepEqual]
    | str s =>
      have hh : hasHash s = false := by simpa [literal] using hlit
      rw [_match]
      simp [Value.isValid, Value.kind, getMarker, Value.asString, matchers, _matchPrimitive,
        deepEqual, hh]
    | arr xs =>
      simp only [literal] at hlit
      simp only [uniqueKeys] at huniq
      have hsz : sizeOf xs ≤ n := by
        have : sizeOf (Value.arr xs) = 1 + sizeOf xs := by simp
        omega
      have helem : ∀ x ∈ xs, _match L x x = ret true none := fun x hx =>
        ih x (by have := List.sizeOf_lt_of_mem hx; omega) (literal_of_mem_slice hlit x hx)
          (uniqueKeys_of_mem_slice huniq x hx)
      have hloop := sliceLoop_self L xs helem xs.length 0 true (by simp)
      rw [_match_arr, _matchSlice_arr]
      split
      · rename_i h2
        have h0 : (getMarker xs[0]).1 = false :=
          getMarker_of_literal _ (literal_of_mem_slice hlit _ (List.getElem_mem _))
        simp only [h0, Bool.false_eq_true, false_and, if_false]
        exact hloop
      · simp only [ne_eq, not_true_eq_false, if_false]
        exact hloop
    | obj d =>
      simp only [literal] at hlit
      simp only [uniqueKeys, Bool.and_eq_true, decide_eq_true_eq] at huniq
      obtain ⟨hnodup, huniq⟩ := huniq
      have hsz : sizeOf d ≤ n := by
        have : sizeOf (Value.obj d) = 1 + sizeOf d := by simp
        omega
      have hentry : ∀ k v, (k, v) ∈ d → _match L v v = ret true none := fun k v hm =>
        ih v (by have := sizeOf_lt_of_mem_map hm; omega) (literal_of_mem_map hlit k v hm)
          (uniqueKeys_of_mem_map huniq k v hm)
      have h1 : _matchMapCheckIteratingObjectLoop L d d true = ret true none := by
        apply objectLoop_all_true
        intro key v y hm hl
        have hvy : v = y := entry_eq_of_lookup d key y v hnodup hl hm
        subst hvy
        exact hentry key v hm
      have h2 : _matchMapCheckIteratingSpecLoop L d d true = ret true none := by
        apply specLoop_all_true
        intro key y hm
        exact ⟨getMarker_of_literal y (literal_of_mem_map hlit key y hm), y,
          lookup_of_mem_nodup d key y hnodup hm, hentry key y hm⟩
      rw [_match_obj, _matchMap_obj, h1]
      simp only [h2]

/-- C11. Reflexivity of literal matching. For every value tree `v` in which no string value
begins with `#` (arrays and objects nested to any depth, nested nulls allowed, every object
a map with distinct keys), `_match(v, v)` returns `(true, nil)`. This holds for every
non-null `v`, and for `null` as well. -/
theorem literal_matches_itself (L : Lib) (v : Value) (hlit : literal v = true)
    (huniq : uniqueKeys v = true) : _match L v v = ret true none :=
  match_self_of_size L (sizeOf v) v (Nat.le_refl _) hlit huniq

theorem literal_matches_itself_witness :
    literal (.obj [("foo", .str "bar"), ("n", .null), ("xs", .arr [.bool true, .num 42])]) =
      true ∧
    uniqueKeys (.obj [("foo", .str "bar"), ("n", .null), ("xs", .arr [.bool true, .num 42])]) =
      true ∧
    _match Lib.rejecting
      (.obj [("foo", .str "bar"), ("n", .null), ("xs", .arr [.bool true, .num 42])])
      (.obj [("foo", .str "bar"), ("n", .null), ("xs", .arr [.bool true, .num 42])]) =
      ret true none :=
  ⟨by decide, by decide,
    literal_matches_itself Lib.rejecting _ (by decide) (by decide)⟩

/-! ## C19: the public entry points -/

/-- C19. Decode failures are reported before any matching. `JSONMatches` returns `false` with
the error naming the left argument whenever the document text fails to decode, whatever the
pattern text is; `false` with the error naming the specifier argument whenever the document
decodes and the pattern text does not; and exactly the result of `_match` on the two decoded
values when both decode. `JSONStringMatches` is `JSONMatches` on the bytes of its
arguments. -/
theorem decode_failures_come_first (L : Lib)
    (jsonUnmarshal : ByteArray → Except String Value) (j jSpec : ByteArray) :
    (∀ e, jsonUnmarshal j = .error e →
      JSONMatches L jsonUnmarshal j jSpec = ret false (some (.unmarshalLeft e))) ∧
    (∀ x e, jsonUnmarshal j = .ok x → jsonUnmarshal jSpec = .error e →
      JSONMatches L jsonUnmarshal j jSpec = ret false (some (.unmarshalSpecifier e))) ∧
    (∀ x y, jsonUnmarshal j = .ok x → jsonUnmarshal jSpec = .ok y →
      JSONMatches L jsonUnmarshal j jSpec = _match L x y) ∧
    (∀ s t : String, JSONStringMatches L jsonUnmarshal s t =
      JSONMatches L jsonUnmarshal s.toUTF8 t.toUTF8) := by
  refine ⟨fun e he => ?_, fun x e hx he => ?_, fun x y hx hy => ?_, fun s t => rfl⟩
  · simp [JSONMatches, he]
  · simp [JSONMatches, hx, he]
  · simp [JSONMatches, hx, hy]

theorem decode_failures_come_first_witness :
    sampleUnmarshal "[A237".toUTF8 = .error "invalid character" ∧
    sampleUnmarshal "15".toUTF8 = .ok (.num 15) ∧
    JSONStringMatches Lib.rejecting sampleUnmarshal "[A237" "#ignore" =
      ret false (some (.unmarshalLeft "invalid character")) ∧
    JSONStringMatches Lib.rejecting sampleUnmarshal "15" "[A237" =
      ret false (some (.unmarshalSpecifier "invalid character")) ∧
    JSONStringMatches Lib.rejecting sampleUnmarshal "15" "15" =
      _match Lib.rejecting (.num 15) (.num 15) :=
  ⟨rfl, rfl,
    ((decode_failures_come_first Lib.rejecting sampleUnmarshal "[A237".toUTF8
        "#ignore".toUTF8).2.2.2 "[A237" "#ignore").trans
      ((decode_failures_come_first Lib.rejecting sampleUnmarshal "[A237".toUTF8
        "#ignore".toUTF8).1 _ rfl),
    ((decode_failures_come_first Lib.rejecting sampleUnmarshal "15".toUTF8
        "[A237".toUTF8).2.2.2 "15" "[A237").trans
      ((decode_failures_come_first Lib.rejecting sampleUnmarshal "15".toUTF8
        "[A237".toUTF8).2.1 _ _ rfl rfl),
    ((decode_failures_come_first Lib.rejecting sampleUnmarshal "15".toUTF8
        "15".toUTF8).2.2.2 "15" "15").trans
      ((decode_failures_come_first Lib.rejecting sampleUnmarshal "15".toUTF8
        "15".toUTF8).2.2.1 _ _ rfl rfl)⟩

/-! ## C20: totality -/

/-- C20. The matcher terminates (the definitions above are total functions), but it does not
always return: against a positional 2-element pattern array `_matchSlice` makes no length
test and indexes the pattern at position 2 for a document array of 3 elements. So
`["a","b","c"]` against `["a","b"]` panics, and so does a document
`{"tags": ["x","y","z"]}` against the pattern `{"tags": ["#string","#string"]}`. -/
theorem index_out_of_range_on_longer_document (L : Lib) :
    _match L (.arr [.str "a", .str "b", .str "c"]) (.arr [.str "a", .str "b"]) = indexPanic ∧
    _match L (.obj [("tags", .arr [.str "x", .str "y", .str "z"])])
      (.obj [("tags", .arr [.str "#string", .str "#string"])]) = indexPanic := by
  refine ⟨?_, ?_⟩ <;>
    simp [_match, _matchSlice, _matchSliceLoop, _matchMap, _matchMapCheckIteratingObject,
      _matchMapCheckIteratingObjectLoop, List.lookup, Value.kind, Value.isValid, Value.isNil,
      getMarker, _matchPrimitive, matchers, Value.asString, deepEqual, hasHash,
      _matchWithSpecifier, splitN, List.span, List.span.loop, ignoreMarker, nullMarker,
      presentMarker]

/-! ## Where the matcher does return -/

theorem ite_ne_panic (c : Prop) [Decidable c] (a b : Outcome) (ha : a ≠ indexPanic)
    (hb : b ≠ indexPanic) : (if c then a else b) ≠ indexPanic := by
  split <;> assumption

theorem ret_ne_panic (b : Bool) (e : Option MatchError) : ret b e ≠ indexPanic := by
  intro h
  cases h

theorem _matchWithSpecifier_ne_panic (L : Lib) (x : Value) (s : String) :
    _matchWithSpecifier L x s ≠ indexPanic := by
  unfold _matchWithSpecifier
  simp only []
  repeat' (first | apply ret_ne_panic | apply ite_ne_panic | split)

theorem _match_of_kind_ne (L : Lib) (x p : Value) (hp : (getMarker p).1 = false)
    (hk : x.kind ≠ p.kind) : _match L x p = ret false none := by
  rw [_match]
  cases p <;> cases x <;>
    simp_all [Value.isValid, Value.kind, matchers, _matchZero]

theorem noPositionalPair_of_mem_slice {ys : List Value} (h : noPositionalPairSlice ys = true) :
    ∀ y ∈ ys, noPositionalPair y = true := by
  induction ys with
  | nil => simp
  | cons z zs ih =>
    simp only [noPositionalPairSlice, Bool.and_eq_true] at h
    intro y hy
    rcases List.mem_cons.1 hy with rfl | hy'
    · exact h.1
    · exact ih h.2 y hy'

theorem noPositionalPair_of_mem_map {kvs : List (String × Value)}
    (h : noPositionalPairMap kvs = true) :
    ∀ k v, (k, v) ∈ kvs → noPositionalPair v = true := by
  induction kvs with
  | nil => simp
  | cons e rest ih =>
    obtain ⟨k', v'⟩ := e
    simp only [noPositionalPairMap, Bool.and_eq_true] at h
    intro k v hm
    rcases List.mem_cons.1 hm with heq | hm'
    · obtain ⟨rfl, rfl⟩ := Prod.mk.inj heq
      exact h.1
    · exact ih h.2 k v hm'

theorem mem_of_lookup {p : List (String × Value)} {k : String} {v : Value}
    (h : p.lookup k = some v) : (k, v) ∈ p := by
  induction p with
  | nil => simp at h
  | cons e rest ih =>
    obtain ⟨k', w⟩ := e
    simp only [List.lookup] at h
    split at h
    · rename_i hkk
      have hk : k = k' := by simpa using hkk
      cases h
      subst hk
      exact List.mem_cons_self _ _
    · exact List.mem_cons_of_mem _ (ih h)

/-- The broadcast loop never indexes the pattern: it returns when the element calls do. -/
theorem sliceLoop_array_of_ne_panic (L : Lib) (vX vY : List Value) (P : Value)
    (h : ∀ x ∈ vX, _match L x P ≠ indexPanic) :
    ∀ (n i : Nat) (matched : Bool), vX.length - i = n →
      _matchSliceLoop L vX vY true P i matched ≠ indexPanic := by
  intro n
  induction n with
  | zero =>
    intro i matched hn
    rw [_matchSliceLoop_eq, dif_neg (by omega)]
    intro hc; cases hc
  | succ n ih =>
    intro i matched hn
    have hi : i < vX.length := by omega
    rw [_matchSliceLoop_eq, dif_pos hi]
    simp only [if_true]
    have hx := h vX[i] (List.getElem_mem hi)
    cases hm : _match L vX[i] P with
    | indexPanic => exact absurd hm hx
    | ret b err =>
      cases err with
      | some e => intro hc; cases hc
      | none => exact ih (i + 1) (matched && b) (by omega)

/-- The positional loop stays within the pattern when the document is not longer: it
returns when the element calls do. -/
theorem sliceLoop_positional_ne_panic (L : Lib) (vX vY : List Value)
    (hlen : vX.length ≤ vY.length)
    (h : ∀ (j : Nat) (hx : j < vX.length) (hy : j < vY.length),
      _match L vX[j] vY[j] ≠ indexPanic) :
    ∀ (n i : Nat) (matched : Bool), vX.length - i = n →
      _matchSliceLoop L vX vY false .null i matched ≠ indexPanic := by
  intro n
  induction n with
  | zero =>
    intro i matched hn
    rw [_matchSliceLoop_eq, dif_neg (by omega)]
    intro hc; cases hc
  | succ n ih =>
    intro i matched hn
    have hi : i < vX.length := by omega
    have hi' : i < vY.length := by omega
    rw [_matchSliceLoop_eq, dif_pos hi]
    simp only [Bool.false_eq_true, if_false, List.getElem?_eq_getElem hi']
    have hx := h i hi hi'
    cases hm : _match L vX[i] vY[i] with
    | indexPanic => exact absurd hm hx
    | ret b err =>
      cases err with
      | some e => intro hc; cases hc
      | none => exact ih (i + 1) (matched && b) (by omega)

theorem objectLoop_ne_panic (L : Lib) (vY iterX : List (String × Value)) (matched : Bool)
    (h : ∀ key v y, (key, v) ∈ iterX → vY.lookup key = some y → _match L v y ≠ indexPanic) :
    _matchMapCheckIteratingObjectLoop L vY iterX matched ≠ indexPanic := by
  induction iterX generalizing matched with
  | nil => rw [objectLoop_nil]; intro hc; cases hc
  | cons e rest ih =>
    obtain ⟨k', v'⟩ := e
    have ih' := fun m => ih m (fun key v y hm => h key v y (List.mem_cons_of_mem _ hm))
    rw [objectLoop_cons]
    cases hl : vY.lookup k' with
    | none => exact ih' _
    | some y' =>
      have hx := h k' v' y' (List.mem_cons_self _ _) hl
      simp only []
      cases hm : _match L v' y' with
      | indexPanic => exact absurd hm hx
      | ret b err =>
        cases err with
        | some e => intro hc; cases hc
        | none => exact ih' _

theorem specLoop_ne_panic (L : Lib) (vX iterY : List (String × Value)) (matched : Bool)
    (h : ∀ key x y, (key, y) ∈ iterY → vX.lookup key = some x → _match L x y ≠ indexPanic) :
    _matchMapCheckIteratingSpecLoop L vX iterY matched ≠ indexPanic := by
  induction iterY generalizing matched with
  | nil => rw [specLoop_nil]; intro hc; cases hc
  | cons e rest ih =>
    obtain ⟨k', y'⟩ := e
    have ih' := fun m => ih m (fun key x y hm => h key x y (List.mem_cons_of_mem _ hm))
    rw [specLoop_cons]
    split_ifs
    · exact ih' _
    · exact ih' _
    · cases hl : vX.lookup k' with
      | none => exact ih' _
      | some x' =>
        have hx := h k' x' y' (List.mem_cons_self _ _) hl
        simp only []
        cases hm : _match L x' y' with
        | indexPanic => exact absurd hm hx
        | ret b err =>
          cases err with
          | some e => intro hc; cases hc
          | none => exact ih' _
    · exact ih' _

theorem match_returns_of_size (L : Lib) :
    ∀ (n : Nat) (p : Value), sizeOf p ≤ n → noPositionalPair p = true →
      ∀ x, _match L x p ≠ indexPanic := by
  intro n
  induction n with
  | zero =>
    intro p hs
    cases p <;> simp at hs
  | succ n ih =>
    intro p hs hnp x
    cases p with
    | null =>
      cases x <;> (rw [_match]; simp [Value.isValid, Value.kind, _matchZero])
    | bool b =>
      cases x <;>
        (rw [_match]
         simp [Value.isValid, Value.kind, matchers, _matchPrimitive, getMarker,
           Value.asString])
    | num q =>
      cases x <;>
        (rw [_match]
         simp [Value.isValid, Value.kind, matchers, _matchPrimitive, getMarker,
           Value.asString])
    | str s =>
      by_cases hh : hasHash s = true
      · rw [_match_marker L x s hh]
        exact _matchWithSpecifier_ne_panic L x s
      · cases x <;>
          (rw [_match]
           simp [Value.isValid, Value.kind, matchers, _matchPrimitive, getMarker,
             Value.asString, hh])
    | arr ys =>
      have hsz : sizeOf ys ≤ n := by
        have : sizeOf (Value.arr ys) = 1 + sizeOf ys := by simp
        omega
      simp only [noPositionalPair, Bool.and_eq_true, Bool.or_eq_true, bne_iff_ne, ne_eq] at hnp
      obtain ⟨hshape, helems⟩ := hnp
      have hsub : ∀ y ∈ ys, ∀ x', _match L x' y ≠ indexPanic := fun y hy =>
        ih y (by have := List.sizeOf_lt_of_mem hy; omega)
          (noPositionalPair_of_mem_slice helems y hy)
      cases x with
      | arr xs =>
        rw [_match_arr, _matchSlice_arr]
        split
        · rename_i h2
          split
          · exact sliceLoop_array_of_ne_panic L xs ys ys[1]
              (fun x' _ => hsub ys[1] (List.getElem_mem _) x') xs.length 0 true (by simp)
          · rename_i hnot
            exfalso
            rcases hshape with hne | hmk
            · exact hne h2
            · apply hnot
              have h0 : ys.headD .null = ys[0] := by
                cases ys with
                | nil => simp at h2
                | cons y rest => rfl
              rw [h0] at hmk
              simp only [isMarker, Bool.and_eq_true, beq_iff_eq] at hmk
              exact ⟨hmk.1, hmk.2.symm⟩
        · split
          · exact ret_ne_panic _ _
          · rename_i hlen
            have hlen' : xs.length = ys.length := by simpa using hlen
            exact sliceLoop_positional_ne_panic L xs ys (Nat.le_of_eq hlen')
              (fun j _ hy => hsub ys[j] (List.getElem_mem hy) _) xs.length 0 true (by simp)
      | null => rw [_match_of_kind_ne L _ _ (by rfl) (by simp [Value.kind])]; exact ret_ne_panic _ _
      | bool b => rw [_match_of_kind_ne L _ _ (by rfl) (by simp [Value.kind])]; exact ret_ne_panic _ _
      | num q => rw [_match_of_kind_ne L _ _ (by rfl) (by simp [Value.kind])]; exact ret_ne_panic _ _
      | str s => rw [_match_of_kind_ne L _ _ (by rfl) (by simp [Value.kind])]; exact ret_ne_panic _ _
      | obj d => rw [_match_of_kind_ne L _ _ (by rfl) (by simp [Value.kind])]; exact ret_ne_panic _ _
    | obj kvs =>
      have hsz : sizeOf kvs ≤ n := by
        have : sizeOf (Value.obj kvs) = 1 + sizeOf kvs := by simp
        omega
      simp only [noPositionalPair] at hnp
      have hsub : ∀ k y, (k, y) ∈ kvs → ∀ x', _match L x' y ≠ indexPanic := fun k y hm =>
        ih y (by have := sizeOf_lt_of_mem_map hm; omega)
          (noPositionalPair_of_mem_map hnp k y hm)
      cases x with
      | obj d =>
        have h1 := objectLoop_ne_panic L kvs d true
          (fun key v y _ hl => hsub key y (mem_of_lookup hl) v)
        have h2 := specLoop_ne_panic L d kvs true
          (fun key x' y hm _ => hsub key y hm x')
        rw [_match_obj, _matchMap_obj]
        split
        · rename_i heq
          exact absurd heq h1
        · exact ret_ne_panic _ _
        · exact ret_ne_panic _ _
        · split
          · rename_i heq
            exact absurd heq h2
          · exact ret_ne_panic _ _
          · exact ret_ne_panic _ _
      | null => rw [_match_of_kind_ne L _ _ (by rfl) (by simp [Value.kind])]; exact ret_ne_panic _ _
      | bool b => rw [_match_of_kind_ne L _ _ (by rfl) (by simp [Value.kind])]; exact ret_ne_panic _ _
      | num q => rw [_match_of_kind_ne L _ _ (by rfl) (by simp [Value.kind])]; exact ret_ne_panic _ _
      | str s => rw [_match_of_kind_ne L _ _ (by rfl) (by simp [Value.kind])]; exact ret_ne_panic _ _
      | arr xs => rw [_match_of_kind_ne L _ _ (by rfl) (by simp [Value.kind])]; exact ret_ne_panic _ _

/-- Away from positional 2-element pattern arrays the matcher is total: if no array of the
pattern has exactly 2 elements, the array-of sugar apart, `_match` returns a
`(verdict, error)` pair for every document. -/
theorem returns_without_positional_pair (L : Lib) (x p : Value)
    (hp : noPositionalPair p = true) : ∃ b e, _match L x p = ret b e := by
  have h := match_returns_of_size L (sizeOf p) p (Nat.le_refl _) hp x
  cases hm : _match L x p with
  | indexPanic => exact absurd hm h
  | ret b e => exact ⟨b, e, rfl⟩

/-- Where the matcher returns, a missing required key gives a false verdict: if no array of
the pattern has exactly 2 elements, the array-of sugar apart, and the pattern has a key `k`
that is absent from the document with `p[k]` neither `"#ignore"` nor `"#notpresent"`, then
`_match(d, p)` returns `false`. -/
theorem required_key_false_without_positional_pair (L : Lib) (d p : List (String × Value))
    (k : String) (pat : Value) (hp : p.lookup k = some pat) (habs : k ∉ d.map Prod.fst)
    (hi : pat ≠ .str "#ignore") (hn : pat ≠ .str "#notpresent")
    (hpair : noPositionalPair (.obj p) = true) :
    ∃ e, _match L (.obj d) (.obj p) = ret false e := by
  rcases (required_key_must_exist L d p k pat hp habs hi hn).2 with h | h
  · obtain ⟨b, e, hr⟩ := returns_without_positional_pair L (.obj d) (.obj p) hpair
    rw [h] at hr
    cases hr
  · exact h

/-! ## The two passes of `_matchMap` as one pass over the pattern keys -/

theorem exactKeyContribution_of_present (L : Lib) (d : List (String × Value)) (k : String)
    (pat v : Value) (h : d.lookup k = some v) :
    exactKeyContribution L d k pat = _match L v pat := by
  unfold exactKeyContribution
  by_cases h1 : isMarker pat "#notpresent" = true
  · have := (isMarker_eq_true_iff pat _ (by rfl)).1 h1
    subst this
    simp [h1, h, _match_notpresent]
  · by_cases h2 : isMarker pat "#present" = true
    · have := (isMarker_eq_true_iff pat _ (by rfl)).1 h2
      subst this
      simp [h1, h2, h, _match_present]
    · by_cases h3 : isMarker pat "#ignore" = true
      · have := (isMarker_eq_true_iff pat _ (by rfl)).1 h3
        subst this
        simp [h1, h2, h3, _match_ignore]
      · simp [h1, h2, h3, h]

theorem exactKeyContribution_of_absent (L : Lib) (d : List (String × Value)) (k : String)
    (pat : Value) (h : d.lookup k = none) :
    ∃ c, exactKeyContribution L d k pat = ret c none := by
  unfold exactKeyContribution
  rw [h]
  split_ifs <;> exact ⟨_, rfl⟩

/-- The second pass of the source is a fold of the contributions of the specification. -/
theorem specLoop_cons_contribution (L : Lib) (vX next : List (String × Value)) (key : String)
    (y : Value) (matched : Bool) :
    _matchMapCheckIteratingSpecLoop L vX ((key, y) :: next) matched =
      match exactKeyContribution L vX key y with
      | indexPanic => indexPanic
      | ret _ (some err) => ret false (some (.mapElement key err))
      | ret c none => _matchMapCheckIteratingSpecLoop L vX next (matched && c) := by
  rw [specLoop_cons]
  unfold exactKeyContribution
  have e1 : ((getMarker y).1 = true ∧ (getMarker y).2 = "#notpresent") ↔
      isMarker y "#notpresent" = true := by
    rw [getMarker_eq_iff y _ (by rfl), isMarker_eq_true_iff y _ (by rfl)]
  have e2 : ((getMarker y).1 = true ∧ (getMarker y).2 = presentMarker) ↔
      isMarker y "#present" = true := by
    rw [getMarker_eq_iff y _ (by rfl), isMarker_eq_true_iff y _ (by rfl)]
    rfl
  simp only [e1, e2]
  by_cases h1 : isMarker y "#notpresent" = true
  · simp [h1]
  · by_cases h2 : isMarker y "#present" = true
    · simp [h1, h2]
    · by_cases h3 : isMarker y "#ignore" = true
      · simp [h1, h2, h3, ignoreMarker]
      · simp only [h1, h2, h3, ignoreMarker, if_false, Bool.false_eq_true, Bool.not_false,
          if_true]
        cases d : vX.lookup key with
        | none => simp
        | some v => rfl

theorem observation_eq_verdict (o : Outcome) (b : Bool) :
    o.observation = some (b, false) ↔ o = ret b none := by
  cases o with
  | indexPanic => simp [Outcome.observation]
  | ret c err => cases err <;> simp [Outcome.observation]

theorem exactPass_error_false (L : Lib) (d p : List (String × Value)) (b : Bool)
    (e : MatchError) (h : exactSinglePass L d p = ret b (some e)) : b = false := by
  induction p generalizing b e with
  | nil => simp [exactSinglePass] at h
  | cons entry rest ih =>
    obtain ⟨k, y⟩ := entry
    simp only [exactSinglePass] at h
    cases hc : exactKeyContribution L d k y with
    | indexPanic => rw [hc] at h; simp at h
    | ret c err =>
      rw [hc] at h
      cases err with
      | some e' => simp at h; exact h.1
      | none =>
        simp only [] at h
        cases hr : exactSinglePass L d rest with
        | indexPanic => rw [hr] at h; simp at h
        | ret b' err' =>
          rw [hr] at h
          cases err' with
          | none => simp at h
          | some e' =>
            simp at h
            rw [← h.1]
            exact ih b' e' hr

/-- The second pass and the exact single pass, entry by entry in the same order. -/
theorem specLoop_observation (L : Lib) (d p : List (String × Value)) (matched : Bool) :
    (_matchMapCheckIteratingSpecLoop L d p matched).observation =
      match (exactSinglePass L d p).observation with
      | some (b, false) => some (matched && b, false)
      | some (_, true) => some (false, true)
      | none => none := by
  induction p generalizing matched with
  | nil => simp [specLoop_nil, exactSinglePass, Outcome.observation]
  | cons entry rest ih =>
    obtain ⟨k, y⟩ := entry
    rw [specLoop_cons_contribution]
    simp only [exactSinglePass]
    cases hc : exactKeyContribution L d k y with
    | indexPanic => simp [Outcome.observation]
    | ret c err =>
      cases err with
      | some e' => simp [Outcome.observation]
      | none =>
        simp only []
        rw [ih]
        cases hr : exactSinglePass L d rest with
        | indexPanic => simp [Outcome.observation]
        | ret b' err' =>
          cases err' with
          | none => simp [Outcome.observation, Bool.and_assoc]
          | some e' => simp [Outcome.observation]

theorem specLoop_true_observation (L : Lib) (d p : List (String × Value)) :
    (_matchMapCheckIteratingSpecLoop L d p true).observation =
      (exactSinglePass L d p).observation := by
  rw [specLoop_observation]
  cases hr : exactSinglePass L d p with
  | indexPanic => simp [Outcome.observation]
  | ret b err =>
    cases err with
    | none => simp [Outcome.observation]
    | some e =>
      have := exactPass_error_false L d p b e hr
      subst this
      simp [Outcome.observation]

/-- The first pass, read backwards: a panic comes from a call on a shared key. -/
theorem objectLoop_panic_source (L : Lib) (vY iterX : List (String × Value)) (matched : Bool)
    (h : _matchMapCheckIteratingObjectLoop L vY iterX matched = indexPanic) :
    ∃ k v y, (k, v) ∈ iterX ∧ vY.lookup k = some y ∧ _match L v y = indexPanic := by
  induction iterX generalizing matched with
  | nil => rw [objectLoop_nil] at h; cases h
  | cons entry rest ih =>
    obtain ⟨k', v'⟩ := entry
    rw [objectLoop_cons] at h
    have lift : (∃ k v y, (k, v) ∈ rest ∧ vY.lookup k = some y ∧ _match L v y = indexPanic) →
        ∃ k v y, (k, v) ∈ (k', v') :: rest ∧ vY.lookup k = some y ∧
          _match L v y = indexPanic :=
      fun ⟨k, v, y, hm, hl, hp⟩ => ⟨k, v, y, List.mem_cons_of_mem _ hm, hl, hp⟩
    cases hl : vY.lookup k' with
    | none => rw [hl] at h; exact lift (ih _ h)
    | some y' =>
      rw [hl] at h
      simp only [] at h
      cases hm : _match L v' y' with
      | indexPanic => exact ⟨k', v', y', List.mem_cons_self _ _, hl, hm⟩
      | ret b err =>
        rw [hm] at h
        cases err with
        | some e => cases h
        | none => exact lift (ih _ h)

/-- The first pass, read backwards: an error comes from a call on a shared key. -/
theorem objectLoop_error_source (L : Lib) (vY iterX : List (String × Value)) (matched : Bool)
    (h : (_matchMapCheckIteratingObjectLoop L vY iterX matched).isError = true) :
    ∃ k v y, (k, v) ∈ iterX ∧ vY.lookup k = some y ∧ (_match L v y).isError = true := by
  induction iterX generalizing matched with
  | nil => rw [objectLoop_nil] at h; simp [Outcome.isError] at h
  | cons entry rest ih =>
    obtain ⟨k', v'⟩ := entry
    rw [objectLoop_cons] at h
    have lift : (∃ k v y, (k, v) ∈ rest ∧ vY.lookup k = some y ∧
        (_match L v y).isError = true) →
        ∃ k v y, (k, v) ∈ (k', v') :: rest ∧ vY.lookup k = some y ∧
          (_match L v y).isError = true :=
      fun ⟨k, v, y, hm, hl, hp⟩ => ⟨k, v, y, List.mem_cons_of_mem _ hm, hl, hp⟩
    cases hl : vY.lookup k' with
    | none => rw [hl] at h; exact lift (ih _ h)
    | some y' =>
      rw [hl] at h
      simp only [] at h
      cases hm : _match L v' y' with
      | indexPanic => rw [hm] at h; simp [Outcome.isError] at h
      | ret b err =>
        rw [hm] at h
        cases err with
        | some e => exact ⟨k', v', y', List.mem_cons_self _ _, hl, by rw [hm]; rfl⟩
        | none => exact lift (ih _ h)

/-- The first pass, read backwards: a verdict means that every call on a shared key returned
a verdict, and a false verdict that `matches` was false or one of them was false. -/
theorem objectLoop_verdict_source (L : Lib) (vY iterX : List (String × Value))
    (matched b : Bool)
    (h : _matchMapCheckIteratingObjectLoop L vY iterX matched = ret b none) :
    (∀ k v y, (k, v) ∈ iterX → vY.lookup k = some y → ∃ c, _match L v y = ret c none) ∧
    (b = false → matched = false ∨
      ∃ k v y, (k, v) ∈ iterX ∧ vY.lookup k = some y ∧ _match L v y = ret false none) := by
  induction iterX generalizing matched with
  | nil =>
    rw [objectLoop_nil] at h
    cases h
    exact ⟨fun _ _ _ hm => by simp at hm, fun hb => Or.inl hb⟩
  | cons entry rest ih =>
    obtain ⟨k', v'⟩ := entry
    rw [objectLoop_cons] at h
    cases hl : vY.lookup k' with
    | none =>
      rw [hl] at h
      obtain ⟨h1, h2⟩ := ih _ h
      refine ⟨fun k v y hm hy => ?_, fun hb => ?_⟩
      · rcases List.mem_cons.1 hm with heq | hm'
        · obtain ⟨rfl, rfl⟩ := Prod.mk.inj heq
          rw [hl] at hy
          cases hy
        · exact h1 k v y hm' hy
      · rcases h2 hb with hmf | ⟨k, v, y, hm, hy, hf⟩
        · exact Or.inl hmf
        · exact Or.inr ⟨k, v, y, List.mem_cons_of_mem _ hm, hy, hf⟩
    | some y' =>
      rw [hl] at h
      simp only [] at h
      cases hm : _match L v' y' with
      | indexPanic => rw [hm] at h; cases h
      | ret c err =>
        rw [hm] at h
        cases err with
        | some e => cases h
        | none =>
          simp only [] at h
          obtain ⟨h1, h2⟩ := ih _ h
          refine ⟨fun k v y hmem hy => ?_, fun hb => ?_⟩
          · rcases List.mem_cons.1 hmem with heq | hm'
            · obtain ⟨rfl, rfl⟩ := Prod.mk.inj heq
              rw [hl] at hy
              cases hy
              exact ⟨c, hm⟩
            · exact h1 k v y hm' hy
          · rcases h2 hb with hmf | ⟨k, v, y, hmem, hy, hf⟩
            · cases c with
              | true => exact Or.inl (by simpa using hmf)
              | false =>
                exact Or.inr ⟨k', v', y', List.mem_cons_self _ _, hl, hm⟩
            · exact Or.inr ⟨k, v, y, List.mem_cons_of_mem _ hmem, hy, hf⟩

/-- The first pass returns a verdict when every call on a shared key does. -/
theorem objectLoop_verdict_of_calls (L : Lib) (vY iterX : List (String × Value))
    (matched : Bool)
    (h : ∀ k v y, (k, v) ∈ iterX → vY.lookup k = some y → ∃ c, _match L v y = ret c none) :
    ∃ b, _matchMapCheckIteratingObjectLoop L vY iterX matched = ret b none := by
  induction iterX generalizing matched with
  | nil => exact ⟨matched, objectLoop_nil L vY matched⟩
  | cons entry rest ih =>
    obtain ⟨k', v'⟩ := entry
    have ih' := fun m => ih m (fun k v y hm => h k v y (List.mem_cons_of_mem _ hm))
    rw [objectLoop_cons]
    cases hl : vY.lookup k' with
    | none => exact ih' _
    | some y' =>
      obtain ⟨c, hc⟩ := h k' v' y' (List.mem_cons_self _ _) hl
      simp only [hc]
      exact ih' _

theorem exactPass_cons (L : Lib) (d rest : List (String × Value)) (k : String) (y : Value) :
    exactSinglePass L d ((k, y) :: rest) =
      match exactKeyContribution L d k y with
      | indexPanic => indexPanic
      | ret _ (some err) => ret false (some err)
      | ret b none =>
        match exactSinglePass L d rest with
        | ret b' none => ret (b && b') none
        | other => other := by
  simp only [exactSinglePass]

/-- The exact single pass, read backwards: a panic comes from a contribution. -/
theorem exactPass_panic_source (L : Lib) (d p : List (String × Value))
    (h : exactSinglePass L d p = indexPanic) :
    ∃ k y, (k, y) ∈ p ∧ exactKeyContribution L d k y = indexPanic := by
  induction p with
  | nil => simp [exactSinglePass] at h
  | cons entry rest ih =>
    obtain ⟨k', y'⟩ := entry
    rw [exactPass_cons] at h
    cases hc : exactKeyContribution L d k' y' with
    | indexPanic => exact ⟨k', y', List.mem_cons_self _ _, hc⟩
    | ret c err =>
      rw [hc] at h
      cases err with
      | some e => cases h
      | none =>
        simp only [] at h
        cases hr : exactSinglePass L d rest with
        | indexPanic =>
          obtain ⟨k, y, hm, hp⟩ := ih hr
          exact ⟨k, y, List.mem_cons_of_mem _ hm, hp⟩
        | ret b' err' =>
          rw [hr] at h
          cases err' <;> cases h

/-- The exact single pass, read backwards: an error comes from a contribution. -/
theorem exactPass_error_source (L : Lib) (d p : List (String × Value))
    (h : (exactSinglePass L d p).isError = true) :
    ∃ k y, (k, y) ∈ p ∧ (exactKeyContribution L d k y).isError = true := by
  induction p with
  | nil => simp [exactSinglePass, Outcome.isError] at h
  | cons entry rest ih =>
    obtain ⟨k', y'⟩ := entry
    rw [exactPass_cons] at h
    cases hc : exactKeyContribution L d k' y' with
    | indexPanic => rw [hc] at h; simp [Outcome.isError] at h
    | ret c err =>
      rw [hc] at h
      cases err with
      | some e => exact ⟨k', y', List.mem_cons_self _ _, by rw [hc]; rfl⟩
      | none =>
        simp only [] at h
        cases hr : exactSinglePass L d rest with
        | indexPanic => rw [hr] at h; simp [Outcome.isError] at h
        | ret b' err' =>
          rw [hr] at h
          cases err' with
          | none => simp [Outcome.isError] at h
          | some e' =>
            obtain ⟨k, y, hm, hp⟩ := ih (by rw [hr]; rfl)
            exact ⟨k, y, List.mem_cons_of_mem _ hm, hp⟩

/-- The exact single pass, read backwards: a verdict means that every contribution is a
verdict, and
a contribution that is false makes the verdict false. -/
theorem exactPass_verdict_source (L : Lib) (d p : List (String × Value)) (b : Bool)
    (h : exactSinglePass L d p = ret b none) :
    (∀ k y, (k, y) ∈ p → ∃ c, exactKeyContribution L d k y = ret c none) ∧
    ((∃ k y, (k, y) ∈ p ∧ exactKeyContribution L d k y = ret false none) → b = false) := by
  induction p generalizing b with
  | nil =>
    exact ⟨fun _ _ hm => by simp at hm, fun ⟨_, _, hm, _⟩ => by simp at hm⟩
  | cons entry rest ih =>
    obtain ⟨k', y'⟩ := entry
    rw [exactPass_cons] at h
    cases hc : exactKeyContribution L d k' y' with
    | indexPanic => rw [hc] at h; cases h
    | ret c err =>
      rw [hc] at h
      cases err with
      | some e => cases h
      | none =>
        simp only [] at h
        cases hr : exactSinglePass L d rest with
        | indexPanic => rw [hr] at h; cases h
        | ret b' err' =>
          rw [hr] at h
          cases err' with
          | some e' => cases h
          | none =>
            simp only [] at h
            obtain ⟨h1, h2⟩ := ih b' hr
            have hb : b = (c && b') := by cases h; rfl
            refine ⟨fun k y hm => ?_, fun ⟨k, y, hm, hf⟩ => ?_⟩
            · rcases List.mem_cons.1 hm with heq | hm'
              · obtain ⟨rfl, rfl⟩ := Prod.mk.inj heq
                exact ⟨c, hc⟩
              · exact h1 k y hm'
            · rcases List.mem_cons.1 hm with heq | hm'
              · obtain ⟨rfl, rfl⟩ := Prod.mk.inj heq
                rw [hc] at hf
                cases hf
                simp [hb]
              · rw [hb, h2 ⟨k, y, hm', hf⟩]
                simp

/-- The exact single pass returns a verdict when every contribution does. -/
theorem exactPass_verdict_of_contributions (L : Lib) (d p : List (String × Value))
    (h : ∀ k y, (k, y) ∈ p → ∃ c, exactKeyContribution L d k y = ret c none) :
    ∃ b, exactSinglePass L d p = ret b none := by
  induction p with
  | nil => exact ⟨true, rfl⟩
  | cons entry rest ih =>
    obtain ⟨k', y'⟩ := entry
    obtain ⟨c, hc⟩ := h k' y' (List.mem_cons_self _ _)
    obtain ⟨b', hb'⟩ := ih (fun k y hm => h k y (List.mem_cons_of_mem _ hm))
    exact ⟨c && b', by rw [exactPass_cons, hc]; simp only [hb']⟩

/-- With distinct keys on both sides, a call on a shared key is the contribution of that
key. -/
theorem contribution_of_shared (L : Lib) (d p : List (String × Value))
    (hd : (d.map Prod.fst).Nodup) (k : String) (v y : Value) (hm : (k, v) ∈ d)
    (hy : p.lookup k = some y) :
    (k, y) ∈ p ∧ exactKeyContribution L d k y = _match L v y :=
  ⟨mem_of_lookup hy, exactKeyContribution_of_present L d k y v (lookup_of_mem_nodup d k v hd hm)⟩

/-- With distinct keys on both sides, a contribution that is not a verdict is a call on a
shared key. -/
theorem shared_of_contribution (L : Lib) (d p : List (String × Value))
    (hp : (p.map Prod.fst).Nodup) (k : String) (y : Value) (hm : (k, y) ∈ p)
    (hnv : ∀ c, exactKeyContribution L d k y ≠ ret c none) :
    ∃ v, (k, v) ∈ d ∧ p.lookup k = some y ∧ exactKeyContribution L d k y = _match L v y := by
  cases hl : d.lookup k with
  | none =>
    obtain ⟨c, hc⟩ := exactKeyContribution_of_absent L d k y hl
    exact absurd hc (hnv c)
  | some v =>
    exact ⟨v, mem_of_lookup hl, lookup_of_mem_nodup p k y hp hm,
      exactKeyContribution_of_present L d k y v hl⟩

theorem contributions_verdict_of_shared (L : Lib) (d p : List (String × Value))
    (hp : (p.map Prod.fst).Nodup)
    (h : ∀ k v y, (k, v) ∈ d → p.lookup k = some y → ∃ c, _match L v y = ret c none) :
    ∀ k y, (k, y) ∈ p → ∃ c, exactKeyContribution L d k y = ret c none := by
  intro k y hm
  cases hl : d.lookup k with
  | none => exact exactKeyContribution_of_absent L d k y hl
  | some v =>
    rw [exactKeyContribution_of_present L d k y v hl]
    exact h k v y (mem_of_lookup hl) (lookup_of_mem_nodup p k y hp hm)

theorem shared_verdict_of_contributions (L : Lib) (d p : List (String × Value))
    (hd : (d.map Prod.fst).Nodup)
    (h : ∀ k y, (k, y) ∈ p → ∃ c, exactKeyContribution L d k y = ret c none) :
    ∀ k v y, (k, v) ∈ d → p.lookup k = some y → ∃ c, _match L v y = ret c none := by
  intro k v y hm hy
  obtain ⟨hmem, heq⟩ := contribution_of_shared L d p hd k v y hm hy
  rw [← heq]
  exact h k y hmem

theorem _matchMap_error_false (L : Lib) (d p : List (String × Value)) (b : Bool)
    (e : MatchError) (h : _matchMap L (.obj d) (.obj p) = ret b (some e)) : b = false := by
  rw [_matchMap_obj] at h
  split at h
  · cases h
  · cases h; rfl
  · cases h
  · split at h
    · cases h
    · cases h; rfl
    · cases h

/-- Same verdict, from the source to the exact single pass. -/
theorem exactPass_verdict_of_two_pass (L : Lib) (d p : List (String × Value))
    (hd : (d.map Prod.fst).Nodup) (hp : (p.map Prod.fst).Nodup) (b : Bool)
    (h : _matchMap L (.obj d) (.obj p) = ret b none) :
    exactSinglePass L d p = ret b none := by
  rw [_matchMap_obj] at h
  cases h1 : _matchMapCheckIteratingObjectLoop L p d true with
  | indexPanic => rw [h1] at h; cases h
  | ret b1 e1 =>
    rw [h1] at h
    cases e1 with
    | some e => cases b1 <;> cases h
    | none =>
      cases b1 with
      | false =>
        simp only [] at h
        cases h
        obtain ⟨hok, hfalse⟩ := objectLoop_verdict_source L p d true false h1
        rcases hfalse rfl with hm | ⟨k, v, y, hm, hy, hf⟩
        · cases hm
        · obtain ⟨b', hb'⟩ := exactPass_verdict_of_contributions L d p
            (contributions_verdict_of_shared L d p hp hok)
          obtain ⟨hmem, heq⟩ := contribution_of_shared L d p hd k v y hm hy
          have hb : b' = false :=
            (exactPass_verdict_source L d p b' hb').2 ⟨k, y, hmem, by rw [heq]; exact hf⟩
          rw [← hb]
          exact hb'
      | true =>
        simp only [] at h
        have hs : _matchMapCheckIteratingSpecLoop L d p true = ret b none := by
          cases hs : _matchMapCheckIteratingSpecLoop L d p true with
          | indexPanic => rw [hs] at h; cases h
          | ret bs es =>
            rw [hs] at h
            cases es with
            | some e => cases h
            | none => simp only [] at h; exact h
        rw [← observation_eq_verdict, ← specLoop_true_observation, hs]
        rfl

/-- Same verdict, from the exact single pass to the source. -/
theorem two_pass_verdict_of_exactPass (L : Lib) (d p : List (String × Value))
    (hd : (d.map Prod.fst).Nodup) (b : Bool)
    (h : exactSinglePass L d p = ret b none) :
    _matchMap L (.obj d) (.obj p) = ret b none := by
  obtain ⟨hok, hfalse⟩ := exactPass_verdict_source L d p b h
  obtain ⟨b1, h1⟩ := objectLoop_verdict_of_calls L p d true
    (shared_verdict_of_contributions L d p hd hok)
  rw [_matchMap_obj, h1]
  cases b1 with
  | true =>
    simp only []
    have hs : _matchMapCheckIteratingSpecLoop L d p true = ret b none := by
      rw [← observation_eq_verdict, specLoop_true_observation, h]
      rfl
    rw [hs]
  | false =>
    simp only []
    obtain ⟨_, hf⟩ := objectLoop_verdict_source L p d true false h1
    rcases hf rfl with hm | ⟨k, v, y, hm, hy, hfalse'⟩
    · cases hm
    · obtain ⟨hmem, heq⟩ := contribution_of_shared L d p hd k v y hm hy
      have hb : b = false := hfalse ⟨k, y, hmem, by rw [heq]; exact hfalse'⟩
      rw [hb]

/-- When no call on a shared key panics, the source and the exact single pass agree on the
verdict
and on the presence of an error. -/
theorem two_pass_observation_of_no_panic (L : Lib) (d p : List (String × Value))
    (hd : (d.map Prod.fst).Nodup) (hp : (p.map Prod.fst).Nodup)
    (hnp : ∀ k v y, (k, v) ∈ d → p.lookup k = some y → _match L v y ≠ indexPanic) :
    (_matchMap L (.obj d) (.obj p)).observation =
      (exactSinglePass L d p).observation := by
  cases hr : exactSinglePass L d p with
  | indexPanic =>
    exfalso
    obtain ⟨k, y, hm, hpanic⟩ := exactPass_panic_source L d p hr
    obtain ⟨v, hv, hy, heq⟩ := shared_of_contribution L d p hp k y hm
      (fun c hc => by rw [hpanic] at hc; cases hc)
    exact hnp k v y hv hy (by rw [← heq]; exact hpanic)
  | ret b err =>
    cases err with
    | none => rw [two_pass_verdict_of_exactPass L d p hd b hr]
    | some e =>
      have hb := exactPass_error_false L d p b e hr
      subst hb
      cases hc : _matchMap L (.obj d) (.obj p) with
      | indexPanic =>
        exfalso
        rw [_matchMap_obj] at hc
        have h1 := objectLoop_ne_panic L p d true hnp
        have h2 := specLoop_ne_panic L d p true
          (fun key x y hm hl => hnp key x y (mem_of_lookup hl)
            (lookup_of_mem_nodup p key y hp hm))
        split at hc
        · rename_i heq; exact h1 heq
        · cases hc
        · cases hc
        · split at hc
          · rename_i heq; exact h2 heq
          · cases hc
          · cases hc
      | ret b' err' =>
        cases err' with
        | none =>
          have := exactPass_verdict_of_two_pass L d p hd hp b' hc
          rw [hr] at this
          cases this
        | some e' =>
          have hb' := _matchMap_error_false L d p b' e' hc
          subst hb'
          rfl

/-- Enumerating the pattern in a suitable order, the exact single pass shows what the source
shows. -/
theorem exactPass_reaches_two_pass (L : Lib) (d p : List (String × Value))
    (hd : (d.map Prod.fst).Nodup) (hp : (p.map Prod.fst).Nodup) :
    ∃ p', p'.Perm p ∧
      (exactSinglePass L d p').observation =
        (_matchMap L (.obj d) (.obj p)).observation := by
  have front : ∀ k v y, (k, v) ∈ d → p.lookup k = some y →
      (∀ c, _match L v y ≠ ret c none) →
      ∃ p', p'.Perm p ∧ exactSinglePass L d p' =
        match _match L v y with
        | indexPanic => indexPanic
        | ret _ (some err) => ret false (some err)
        | ret c none => ret c none := by
    intro k v y hm hy hnv
    obtain ⟨hmem, heq⟩ := contribution_of_shared L d p hd k v y hm hy
    obtain ⟨s, t, hst⟩ := List.append_of_mem hmem
    refine ⟨(k, y) :: (s ++ t), ?_, ?_⟩
    · rw [hst]
      exact List.perm_middle.symm
    · rw [exactPass_cons, heq]
      cases hc : _match L v y with
      | indexPanic => rfl
      | ret c err =>
        cases err with
        | some e => rfl
        | none => exact absurd hc (hnv c)
  cases hc : _matchMap L (.obj d) (.obj p) with
  | ret b err =>
    cases err with
    | none => exact ⟨p, List.Perm.refl _, by rw [exactPass_verdict_of_two_pass L d p hd hp b hc]⟩
    | some e =>
      have hb := _matchMap_error_false L d p b e hc
      subst hb
      by_cases h1 : (_matchMapCheckIteratingObjectLoop L p d true).isError = true
      · obtain ⟨k, v, y, hm, hy, he⟩ := objectLoop_error_source L p d true h1
        obtain ⟨p', hperm, hp'⟩ := front k v y hm hy
          (fun c hcc => by rw [hcc] at he; simp [Outcome.isError] at he)
        refine ⟨p', hperm, ?_⟩
        rw [hp']
        cases hm' : _match L v y with
        | indexPanic => rw [hm'] at he; simp [Outcome.isError] at he
        | ret c err =>
          cases err with
          | some e' => rfl
          | none => rw [hm'] at he; simp [Outcome.isError] at he
      · refine ⟨p, List.Perm.refl _, ?_⟩
        rw [← specLoop_true_observation]
        rw [_matchMap_obj] at hc
        cases ho : _matchMapCheckIteratingObjectLoop L p d true with
        | indexPanic => rw [ho] at hc; cases hc
        | ret b1 e1 =>
          rw [ho] at hc h1
          cases e1 with
          | some e' => simp [Outcome.isError] at h1
          | none =>
            cases b1 with
            | false => cases hc
            | true =>
              simp only [] at hc
              cases hs : _matchMapCheckIteratingSpecLoop L d p true with
              | indexPanic => rw [hs] at hc; cases hc
              | ret bs es =>
                rw [hs] at hc
                cases es with
                | none => cases hc
                | some e' =>
                  have hobs := specLoop_true_observation L d p
                  rw [hs] at hobs
                  cases hr : exactSinglePass L d p with
                  | indexPanic => rw [hr] at hobs; simp [Outcome.observation] at hobs
                  | ret br er =>
                    cases er with
                    | none => rw [hr] at hobs; simp [Outcome.observation] at hobs
                    | some e'' =>
                      have := exactPass_error_false L d p br e'' hr
                      subst this
                      rw [hr] at hobs
                      simpa [Outcome.observation] using hobs
  | indexPanic =>
    by_cases h1 : _matchMapCheckIteratingObjectLoop L p d true = indexPanic
    · obtain ⟨k, v, y, hm, hy, hpanic⟩ := objectLoop_panic_source L p d true h1
      obtain ⟨p', hperm, hp'⟩ := front k v y hm hy
        (fun c hcc => by rw [hcc] at hpanic; cases hpanic)
      refine ⟨p', hperm, ?_⟩
      rw [hp', hpanic]
    · refine ⟨p, List.Perm.refl _, ?_⟩
      rw [← specLoop_true_observation]
      rw [_matchMap_obj] at hc
      cases ho : _matchMapCheckIteratingObjectLoop L p d true with
      | indexPanic => exact absurd ho h1
      | ret b1 e1 =>
        rw [ho] at hc
        cases e1 with
        | some e' => cases b1 <;> cases hc
        | none =>
          cases b1 with
          | false => cases hc
          | true =>
            simp only [] at hc
            cases hs : _matchMapCheckIteratingSpecLoop L d p true with
            | indexPanic => rfl
            | ret bs es =>
              rw [hs] at hc
              cases es <;> cases hc

/-- Enumerating the document in a suitable order, the source shows what the exact single pass
shows. -/
theorem two_pass_reaches_exactPass (L : Lib) (d p : List (String × Value))
    (hd : (d.map Prod.fst).Nodup) (hp : (p.map Prod.fst).Nodup) :
    ∃ d', d'.Perm d ∧
      (_matchMap L (.obj d') (.obj p)).observation =
        (exactSinglePass L d p).observation := by
  have front : ∀ k y, (k, y) ∈ p → (∀ c, exactKeyContribution L d k y ≠ ret c none) →
      ∃ d', d'.Perm d ∧ _matchMap L (.obj d') (.obj p) =
        match exactKeyContribution L d k y with
        | indexPanic => indexPanic
        | ret _ (some err) => ret false (some (.mapElement k err))
        | ret c none => ret c none := by
    intro k y hm hnv
    obtain ⟨v, hv, hy, heq⟩ := shared_of_contribution L d p hp k y hm hnv
    obtain ⟨s, t, hst⟩ := List.append_of_mem hv
    refine ⟨(k, v) :: (s ++ t), ?_, ?_⟩
    · rw [hst]
      exact List.perm_middle.symm
    · rw [_matchMap_obj, objectLoop_cons, hy, heq]
      simp only []
      cases hc : _match L v y with
      | indexPanic => rfl
      | ret c err =>
        cases err with
        | some e => rfl
        | none => rw [heq] at hnv; exact absurd hc (hnv c)
  cases hr : exactSinglePass L d p with
  | ret b err =>
    cases err with
    | none => exact ⟨d, List.Perm.refl _, by rw [two_pass_verdict_of_exactPass L d p hd b hr]⟩
    | some e =>
      have hb := exactPass_error_false L d p b e hr
      subst hb
      obtain ⟨k, y, hm, he⟩ := exactPass_error_source L d p (by rw [hr]; rfl)
      obtain ⟨d', hperm, hd'⟩ := front k y hm
        (fun c hcc => by rw [hcc] at he; simp [Outcome.isError] at he)
      refine ⟨d', hperm, ?_⟩
      rw [hd']
      cases hc : exactKeyContribution L d k y with
      | indexPanic => rw [hc] at he; simp [Outcome.isError] at he
      | ret c err =>
        cases err with
        | some e' => rfl
        | none => rw [hc] at he; simp [Outcome.isError] at he
  | indexPanic =>
    obtain ⟨k, y, hm, hpanic⟩ := exactPass_panic_source L d p hr
    obtain ⟨d', hperm, hd'⟩ := front k y hm
      (fun c hcc => by rw [hcc] at hpanic; cases hpanic)
    refine ⟨d', hperm, ?_⟩
    rw [hd', hpanic]

/-- The two passes of the source and the single pass with the whole-string test. For every
object document `d` and object pattern `p` (maps: distinct keys), `_matchMap` and
`exactSinglePass` return the same error-free verdicts; they show the same verdict and the
same presence of an error whenever no call on a shared key panics; and in every case what
one of them shows is shown by the other for some enumeration order of the keys, which Go
leaves unspecified. -/
theorem two_pass_equals_exact_single_pass (L : Lib) (d p : List (String × Value))
    (hd : (d.map Prod.fst).Nodup) (hp : (p.map Prod.fst).Nodup) :
    (∀ b, _matchMap L (.obj d) (.obj p) = ret b none ↔
      exactSinglePass L d p = ret b none) ∧
    ((∀ k v y, (k, v) ∈ d → p.lookup k = some y → _match L v y ≠ indexPanic) →
      (_matchMap L (.obj d) (.obj p)).observation =
        (exactSinglePass L d p).observation) ∧
    (∃ p', p'.Perm p ∧
      (exactSinglePass L d p').observation =
        (_matchMap L (.obj d) (.obj p)).observation) ∧
    (∃ d', d'.Perm d ∧
      (_matchMap L (.obj d') (.obj p)).observation =
        (exactSinglePass L d p).observation) :=
  ⟨fun b => ⟨exactPass_verdict_of_two_pass L d p hd hp b,
      two_pass_verdict_of_exactPass L d p hd b⟩,
    two_pass_observation_of_no_panic L d p hd hp,
    exactPass_reaches_two_pass L d p hd hp,
    two_pass_reaches_exactPass L d p hd hp⟩

theorem two_pass_equals_exact_single_pass_witness :
    ([("id", Value.num 2), ("ok", Value.bool false)].map Prod.fst).Nodup ∧
    ([("foo", Value.str "#notpresent"), ("id", Value.str "#number"),
      ("ok", Value.str "#boolean")].map Prod.fst).Nodup ∧
    exactSinglePass Lib.rejecting [("id", .num 2), ("ok", .bool false)]
      [("foo", .str "#notpresent"), ("id", .str "#number"), ("ok", .str "#boolean")] =
        ret true none ∧
    (_matchMap Lib.rejecting (.obj [("id", .num 2), ("ok", .bool false)])
        (.obj [("foo", .str "#notpresent"), ("id", .str "#number"),
          ("ok", .str "#boolean")]) = ret true none ↔
      exactSinglePass Lib.rejecting [("id", .num 2), ("ok", .bool false)]
        [("foo", .str "#notpresent"), ("id", .str "#number"), ("ok", .str "#boolean")] =
          ret true none) :=
  ⟨by decide, by decide,
    by simp [exactSinglePass, exactKeyContribution, isMarker, _match, List.lookup, Value.kind,
      Value.isValid, Value.isNil, getMarker, Value.asString, hasHash, _matchWithSpecifier,
      splitN, List.span, List.span.loop, ignoreMarker, nullMarker, presentMarker],
    (two_pass_equals_exact_single_pass Lib.rejecting [("id", .num 2), ("ok", .bool false)]
      [("foo", .str "#notpresent"), ("id", .str "#number"), ("ok", .str "#boolean")]
      (by decide) (by decide)).1 true⟩

/-! ## C22: where errors come from -/

/-- The slice loop keeps every property of results that holds of verdicts and of the panic
and survives the wrapping of an element error. -/
theorem sliceLoop_preserves (L : Lib) (Q : Outcome → Prop) (hv : ∀ b, Q (ret b none))
    (hpanic : Q indexPanic)
    (hwrap : ∀ c e i, Q (ret c (some e)) → Q (ret false (some (.sliceElement i e))))
    (vX vY : List Value) (isArrayOf : Bool) (arrayOf : Value)
    (h : ∀ x ∈ vX, ∀ y, (isArrayOf = true ∧ y = arrayOf) ∨ (isArrayOf = false ∧ y ∈ vY) →
      Q (_match L x y)) :
    ∀ (n i : Nat) (matched : Bool), vX.length - i = n →
      Q (_matchSliceLoop L vX vY isArrayOf arrayOf i matched) := by
  intro n
  induction n with
  | zero =>
    intro i matched hn
    rw [_matchSliceLoop_eq, dif_neg (by omega)]
    exact hv _
  | succ n ih =>
    intro i matched hn
    have hi : i < vX.length := by omega
    rw [_matchSliceLoop_eq, dif_pos hi]
    cases hy : (if isArrayOf = true then some arrayOf else vY[i]?) with
    | none => exact hpanic
    | some y =>
      have hyy : (isArrayOf = true ∧ y = arrayOf) ∨ (isArrayOf = false ∧ y ∈ vY) := by
        cases isArrayOf with
        | true => simp at hy; exact Or.inl ⟨rfl, hy.symm⟩
        | false =>
          simp at hy
          exact Or.inr ⟨rfl, List.getElem?_mem hy⟩
      have hq := h vX[i] (List.getElem_mem hi) y hyy
      simp only []
      cases hm : _match L vX[i] y with
      | indexPanic => exact hpanic
      | ret c err =>
        rw [hm] at hq
        cases err with
        | some e => exact hwrap c e i hq
        | none => exact ih (i + 1) (matched && c) (by omega)

/-- The first pass keeps every such property of the calls on shared keys. -/
theorem objectLoop_preserves (L : Lib) (Q : Outcome → Prop) (hv : ∀ b, Q (ret b none))
    (hpanic : Q indexPanic)
    (hwrap : ∀ c e k, Q (ret c (some e)) → Q (ret false (some (.mapElement k e))))
    (vY iterX : List (String × Value)) (matched : Bool)
    (h : ∀ k v y, (k, v) ∈ iterX → vY.lookup k = some y → Q (_match L v y)) :
    Q (_matchMapCheckIteratingObjectLoop L vY iterX matched) := by
  induction iterX generalizing matched with
  | nil => rw [objectLoop_nil]; exact hv _
  | cons entry rest ih =>
    obtain ⟨k', v'⟩ := entry
    have ih' := fun m => ih m (fun k v y hm => h k v y (List.mem_cons_of_mem _ hm))
    rw [objectLoop_cons]
    cases hl : vY.lookup k' with
    | none => exact ih' _
    | some y' =>
      have hq := h k' v' y' (List.mem_cons_self _ _) hl
      simp only []
      cases hm : _match L v' y' with
      | indexPanic => exact hpanic
      | ret c err =>
        rw [hm] at hq
        cases err with
        | some e => exact hwrap c e k' hq
        | none => exact ih' _

/-- The second pass keeps every such property of the calls on shared keys. -/
theorem specLoop_preserves (L : Lib) (Q : Outcome → Prop) (hv : ∀ b, Q (ret b none))
    (hpanic : Q indexPanic)
    (hwrap : ∀ c e k, Q (ret c (some e)) → Q (ret false (some (.mapElement k e))))
    (vX iterY : List (String × Value)) (matched : Bool)
    (h : ∀ k x y, (k, y) ∈ iterY → vX.lookup k = some x → Q (_match L x y)) :
    Q (_matchMapCheckIteratingSpecLoop L vX iterY matched) := by
  induction iterY generalizing matched with
  | nil => rw [specLoop_nil]; exact hv _
  | cons entry rest ih =>
    obtain ⟨k', y'⟩ := entry
    have ih' := fun m => ih m (fun k x y hm => h k x y (List.mem_cons_of_mem _ hm))
    rw [specLoop_cons]
    split_ifs
    · exact ih' _
    · exact ih' _
    · cases hl : vX.lookup k' with
      | none => exact ih' _
      | some x' =>
        have hq := h k' x' y' (List.mem_cons_self _ _) hl
        simp only []
        cases hm : _match L x' y' with
        | indexPanic => exact hpanic
        | ret c err =>
          rw [hm] at hq
          cases err with
          | some e => exact hwrap c e k' hq
          | none => exact ih' _
    · exact ih' _

/-- The object comparison keeps every such property of the calls on shared keys. -/
theorem _matchMap_preserves (L : Lib) (Q : Outcome → Prop) (hv : ∀ b, Q (ret b none))
    (hpanic : Q indexPanic)
    (hwrap : ∀ c e k, Q (ret c (some e)) → Q (ret false (some (.mapElement k e))))
    (hfalse : ∀ c e, Q (ret c (some e)) → Q (ret false (some e)))
    (d p : List (String × Value))
    (h : ∀ k v y, (k, v) ∈ d → (k, y) ∈ p → Q (_match L v y)) :
    Q (_matchMap L (.obj d) (.obj p)) := by
  have h1 := objectLoop_preserves L Q hv hpanic hwrap p d true
    (fun k v y hm hl => h k v y hm (mem_of_lookup hl))
  have h2 := specLoop_preserves L Q hv hpanic hwrap d p true
    (fun k x y hm hl => h k x y (mem_of_lookup hl) hm)
  rw [_matchMap_obj]
  split
  · exact hpanic
  · rename_i heq; rw [heq] at h1; exact hfalse _ _ h1
  · exact hv _
  · split
    · exact hpanic
    · rename_i heq; rw [heq] at h2; exact hfalse _ _ h2
    · exact hv _

theorem ite_errorFromSpecifier (c : Prop) [Decidable c] (a b : Outcome)
    (ha : a.errorFromSpecifier = true) (hb : b.errorFromSpecifier = true) :
    (if c then a else b).errorFromSpecifier = true := by
  split <;> assumption

theorem _matchWithSpecifier_errorFromSpecifier (L : Lib) (x : Value) (s : String) :
    (_matchWithSpecifier L x s).errorFromSpecifier = true := by
  unfold _matchWithSpecifier
  simp only []
  repeat' (first | rfl | apply ite_errorFromSpecifier | split)

/-- Every error of `_match` was raised by `_matchWithSpecifier`: the errors `kind is not
supported` and `wrong kind` are never returned, at any depth, whatever the pattern. -/
theorem errorFromSpecifier_of_size (L : Lib) :
    ∀ (n : Nat) (p : Value), sizeOf p ≤ n → ∀ x, (_match L x p).errorFromSpecifier = true := by
  intro n
  induction n with
  | zero =>
    intro p hs
    cases p <;> simp at hs
  | succ n ih =>
    intro p hs x
    cases p with
    | null =>
      cases x <;>
        (rw [_match]; simp [Value.isValid, Value.kind, _matchZero, Outcome.errorFromSpecifier])
    | bool b =>
      cases x <;>
        (rw [_match]
         simp [Value.isValid, Value.kind, matchers, _matchPrimitive, getMarker,
           Value.asString, Outcome.errorFromSpecifier])
    | num q =>
      cases x <;>
        (rw [_match]
         simp [Value.isValid, Value.kind, matchers, _matchPrimitive, getMarker,
           Value.asString, Outcome.errorFromSpecifier])
    | str s =>
      by_cases hh : hasHash s = true
      · rw [_match_marker L x s hh]
        exact _matchWithSpecifier_errorFromSpecifier L x s
      · cases x <;>
          (rw [_match]
           simp [Value.isValid, Value.kind, matchers, _matchPrimitive, getMarker,
             Value.asString, hh, Outcome.errorFromSpecifier])
    | arr ys =>
      have hsz : sizeOf ys ≤ n := by
        have : sizeOf (Value.arr ys) = 1 + sizeOf ys := by simp
        omega
      have hsub : ∀ y ∈ ys, ∀ x', (_match L x' y).errorFromSpecifier = true := fun y hy =>
        ih y (by have := List.sizeOf_lt_of_mem hy; omega)
      have hloop : ∀ (xs : List Value) (f : Bool) (a : Value), (f = true → a ∈ ys) →
          (_matchSliceLoop L xs ys f a 0 true).errorFromSpecifier = true := by
        intro xs f a ha
        refine sliceLoop_preserves L (fun o => o.errorFromSpecifier = true) (fun _ => rfl) rfl
          (fun c e i h => h) xs ys f a ?_ xs.length 0 true (by simp)
        intro x' _ y hy
        rcases hy with ⟨hf, rfl⟩ | ⟨_, hmem⟩
        · exact hsub y (ha hf) x'
        · exact hsub y hmem x'
      cases x with
      | arr xs =>
        rw [_match_arr, _matchSlice_arr]
        split
        · split
          · exact hloop xs true _ (fun _ => List.getElem_mem _)
          · exact hloop xs false _ (fun h => by cases h)
        · split
          · rfl
          · exact hloop xs false _ (fun h => by cases h)
      | null => rw [_match_of_kind_ne L _ _ (by rfl) (by simp [Value.kind])]; rfl
      | bool b => rw [_match_of_kind_ne L _ _ (by rfl) (by simp [Value.kind])]; rfl
      | num q => rw [_match_of_kind_ne L _ _ (by rfl) (by simp [Value.kind])]; rfl
      | str s => rw [_match_of_kind_ne L _ _ (by rfl) (by simp [Value.kind])]; rfl
      | obj d => rw [_match_of_kind_ne L _ _ (by rfl) (by simp [Value.kind])]; rfl
    | obj kvs =>
      have hsz : sizeOf kvs ≤ n := by
        have : sizeOf (Value.obj kvs) = 1 + sizeOf kvs := by simp
        omega
      have hsub : ∀ k y, (k, y) ∈ kvs → ∀ x', (_match L x' y).errorFromSpecifier = true :=
        fun k y hm => ih y (by have := sizeOf_lt_of_mem_map hm; omega)
      cases x with
      | obj d =>
        rw [_match_obj]
        exact _matchMap_preserves L (fun o => o.errorFromSpecifier = true) (fun _ => rfl) rfl
          (fun c e k h => h) (fun c e h => h) d kvs (fun k v y _ hm => hsub k y hm v)
      | null => rw [_match_of_kind_ne L _ _ (by rfl) (by simp [Value.kind])]; rfl
      | bool b => rw [_match_of_kind_ne L _ _ (by rfl) (by simp [Value.kind])]; rfl
      | num q => rw [_match_of_kind_ne L _ _ (by rfl) (by simp [Value.kind])]; rfl
      | str s => rw [_match_of_kind_ne L _ _ (by rfl) (by simp [Value.kind])]; rfl
      | arr xs => rw [_match_of_kind_ne L _ _ (by rfl) (by simp [Value.kind])]; rfl

/-- Only specifiers produce errors: an error returned by `_match`, for any document and any
pattern, has an error of `_matchWithSpecifier` at its root. -/
theorem only_specifiers_produce_errors (L : Lib) (x p : Value) (b : Bool) (e : MatchError)
    (h : _match L x p = ret b (some e)) : e.specifierCause = true := by
  have := errorFromSpecifier_of_size L (sizeOf p) p (Nat.le_refl _) x
  rw [h] at this
  exact this

theorem ite_isError_false (c : Prop) [Decidable c] (a b : Outcome)
    (ha : a.isError = false) (hb : b.isError = false) :
    (if c then a else b).isError = false := by
  split <;> assumption

/-- The argument-less markers never raise an error. -/
theorem _matchWithSpecifier_plain (L : Lib) (x : Value) (s : String)
    (hs : s ∈ plainMarkers) : (_matchWithSpecifier L x s).isError = false := by
  simp only [plainMarkers, List.mem_cons, List.mem_singleton, List.not_mem_nil, or_false] at hs
  rcases hs with rfl | rfl | rfl | rfl | rfl | rfl | rfl | rfl | rfl | rfl | rfl | rfl | rfl |
    rfl | rfl <;>
  · unfold _matchWithSpecifier
    simp only [splitN_ignore, splitN_null, splitN_notnull, splitN_present, splitN_notpresent,
      splitN_array, splitN_object, splitN_bool, splitN_boolean, splitN_number, splitN_string,
      splitN_date, splitN_datetime, splitN_uuid, splitN_uuid_v4, ignoreMarker, nullMarker,
      presentMarker]
    simp
    repeat' (first | rfl | apply ite_isError_false | split)

theorem onlyKnownMarkers_of_mem_slice {ys : List Value}
    (h : onlyKnownMarkersSlice false ys = true) : ∀ y ∈ ys, onlyKnownMarkers y = true := by
  induction ys with
  | nil => simp
  | cons z zs ih =>
    simp only [onlyKnownMarkersSlice, Bool.and_eq_true] at h
    intro y hy
    rcases List.mem_cons.1 hy with rfl | hy'
    · exact h.1
    · exact ih h.2 y hy'

theorem onlyKnownMarkers_of_mem_map {kvs : List (String × Value)}
    (h : onlyKnownMarkersMap kvs = true) :
    ∀ k v, (k, v) ∈ kvs → onlyKnownMarkers v = true := by
  induction kvs with
  | nil => simp
  | cons e rest ih =>
    obtain ⟨k', v'⟩ := e
    simp only [onlyKnownMarkersMap, Bool.and_eq_true] at h
    intro k v hm
    rcases List.mem_cons.1 hm with heq | hm'
    · obtain ⟨rfl, rfl⟩ := Prod.mk.inj heq
      exact h.1
    · exact ih h.2 k v hm'

theorem no_error_of_size (L : Lib) :
    ∀ (n : Nat) (p : Value), sizeOf p ≤ n → onlyKnownMarkers p = true →
      ∀ x, (_match L x p).isError = false := by
  intro n
  induction n with
  | zero =>
    intro p hs
    cases p <;> simp at hs
  | succ n ih =>
    intro p hs hok x
    cases p with
    | null =>
      cases x <;>
        (rw [_match]; simp [Value.isValid, Value.kind, _matchZero, Outcome.isError])
    | bool b =>
      cases x <;>
        (rw [_match]
         simp [Value.isValid, Value.kind, matchers, _matchPrimitive, getMarker,
           Value.asString, Outcome.isError])
    | num q =>
      cases x <;>
        (rw [_match]
         simp [Value.isValid, Value.kind, matchers, _matchPrimitive, getMarker,
           Value.asString, Outcome.isError])
    | str s =>
      by_cases hh : hasHash s = true
      · rw [_match_marker L x s hh]
        apply _matchWithSpecifier_plain
        simpa [onlyKnownMarkers, hh] using hok
      · cases x <;>
          (rw [_match]
           simp [Value.isValid, Value.kind, matchers, _matchPrimitive, getMarker,
             Value.asString, hh, Outcome.isError])
    | arr ys =>
      have hsz : sizeOf ys ≤ n := by
        have : sizeOf (Value.arr ys) = 1 + sizeOf ys := by simp
        omega
      simp only [onlyKnownMarkers] at hok
      have hloop : ∀ (xs : List Value) (f : Bool) (a : Value),
          (f = true → a ∈ ys ∧ onlyKnownMarkers a = true) →
          (f = false → ∀ y ∈ ys, onlyKnownMarkers y = true) →
          (_matchSliceLoop L xs ys f a 0 true).isError = false := by
        intro xs f a ha hall
        refine sliceLoop_preserves L (fun o => o.isError = false) (fun _ => rfl) rfl
          (fun c e i h => by simp [Outcome.isError] at h) xs ys f a ?_ xs.length 0 true
          (by simp)
        intro x' _ y hy
        rcases hy with ⟨hf, rfl⟩ | ⟨hf, hmem⟩
        · exact ih y (by have := List.sizeOf_lt_of_mem (ha hf).1; omega) (ha hf).2 x'
        · exact ih y (by have := List.sizeOf_lt_of_mem hmem; omega) (hall hf y hmem) x'
      cases x with
      | arr xs =>
        rw [_match_arr, _matchSlice_arr]
        split
        · rename_i h2
          obtain ⟨a, b, rfl⟩ := List.length_eq_two.1 h2
          split
          · rename_i hmk
            have hmk' : isMarker a "#array-of" = true := by
              rw [isMarker_eq_true_iff a _ (by rfl), ← getMarker_eq_iff a _ (by rfl)]
              simpa using hmk
            have hb : onlyKnownMarkers b = true := by
              simpa [hmk', onlyKnownMarkersSlice] using hok
            exact hloop xs true _ (fun _ => ⟨by simp, by simpa using hb⟩)
              (fun h => by cases h)
          · rename_i hmk
            have hmk' : isMarker a "#array-of" = false := by
              rw [Bool.eq_false_iff, Ne, isMarker_eq_true_iff a _ (by rfl),
                ← getMarker_eq_iff a _ (by rfl)]
              simpa using hmk
            have hall : onlyKnownMarkersSlice false [a, b] = true := by
              simpa [hmk'] using hok
            exact hloop xs false _ (fun h => by cases h)
              (fun _ => onlyKnownMarkers_of_mem_slice hall)
        · rename_i h2
          have hflag : (ys.length == 2) = false := by simpa using h2
          have hall : onlyKnownMarkersSlice false ys = true := by
            simpa [hflag] using hok
          split
          · rfl
          · exact hloop xs false _ (fun h => by cases h)
              (fun _ => onlyKnownMarkers_of_mem_slice hall)
      | null => rw [_match_of_kind_ne L _ _ (by rfl) (by simp [Value.kind])]; rfl
      | bool b => rw [_match_of_kind_ne L _ _ (by rfl) (by simp [Value.kind])]; rfl
      | num q => rw [_match_of_kind_ne L _ _ (by rfl) (by simp [Value.kind])]; rfl
      | str s => rw [_match_of_kind_ne L _ _ (by rfl) (by simp [Value.kind])]; rfl
      | obj d => rw [_match_of_kind_ne L _ _ (by rfl) (by simp [Value.kind])]; rfl
    | obj kvs =>
      have hsz : sizeOf kvs ≤ n := by
        have : sizeOf (Value.obj kvs) = 1 + sizeOf kvs := by simp
        omega
      simp only [onlyKnownMarkers] at hok
      cases x with
      | obj d =>
        rw [_match_obj]
        exact _matchMap_preserves L (fun o => o.isError = false) (fun _ => rfl) rfl
          (fun c e k h => by simp [Outcome.isError] at h)
          (fun c e h => by simp [Outcome.isError] at h) d kvs
          (fun k v y _ hm => ih y (by have := sizeOf_lt_of_mem_map hm; omega)
            (onlyKnownMarkers_of_mem_map hok k y hm) v)
      | null => rw [_match_of_kind_ne L _ _ (by rfl) (by simp [Value.kind])]; rfl
      | bool b => rw [_match_of_kind_ne L _ _ (by rfl) (by simp [Value.kind])]; rfl
      | num q => rw [_match_of_kind_ne L _ _ (by rfl) (by simp [Value.kind])]; rfl
      | str s => rw [_match_of_kind_ne L _ _ (by rfl) (by simp [Value.kind])]; rfl
      | arr xs => rw [_match_of_kind_ne L _ _ (by rfl) (by simp [Value.kind])]; rfl

/-- With known argument-less markers only (and `"#array-of"` at the head of 2-element
arrays), `_match` never returns an error, whatever the document. -/
theorem no_error_with_known_markers (L : Lib) (x p : Value)
    (hp : onlyKnownMarkers p = true) : ∀ b e, _match L x p ≠ ret b (some e) := by
  intro b e h
  have := no_error_of_size L (sizeOf p) p (Nat.le_refl _) hp x
  rw [h] at this
  simp [Outcome.isError] at this

/-- With known markers only and no positional 2-element array in the pattern, `_match`
returns a verdict without error for every document. -/
theorem verdict_with_known_markers (L : Lib) (x p : Value)
    (hp : onlyKnownMarkers p = true) (hpair : noPositionalPair p = true) :
    ∃ b, _match L x p = ret b none := by
  obtain ⟨b, e, h⟩ := returns_without_positional_pair L x p hpair
  cases e with
  | none => exact ⟨b, h⟩
  | some err => exact absurd h (no_error_with_known_markers L x p hp b err)

/-- C22. Patterns with known argument-less markers only never make `_match` return an error,
but a structural mismatch is not always a plain false verdict. The patterns `[true, false]`
and `["#string", "#number"]` have known markers only; against them a shorter document
array is a length mismatch that returns `(true, nil)`, and a longer one panics in
`vY.Index(2)` instead of returning. -/
theorem length_mismatch_is_not_a_false_verdict (L : Lib) :
    onlyKnownMarkers (.arr [.bool true, .bool false]) = true ∧
    _match L (.arr [.bool true]) (.arr [.bool true, .bool false]) = ret true none ∧
    _match L (.arr [.bool true, .bool false, .bool true]) (.arr [.bool true, .bool false]) =
      indexPanic ∧
    onlyKnownMarkers (.arr [.str "#string", .str "#number"]) = true ∧
    _match L (.arr [.str "x"]) (.arr [.str "#string", .str "#number"]) = ret true none ∧
    _match L (.arr [.str "x", .num 1, .null]) (.arr [.str "#string", .str "#number"]) =
      indexPanic := by
  refine ⟨by decide, ?_, ?_, by decide, ?_, ?_⟩ <;>
    simp [_match, _matchSlice, _matchSliceLoop, Value.kind, Value.isValid, Value.isNil,
      getMarker, _matchPrimitive, matchers, Value.asString, deepEqual, hasHash,
      _matchWithSpecifier, splitN, List.span, List.span.loop, ignoreMarker, nullMarker,
      presentMarker]

/-! ## C23: the enumeration order of the keys -/

theorem all_eq_of_perm {α : Type} (f : α → Bool) {l₁ l₂ : List α} (h : l₁.Perm l₂) :
    l₁.all f = l₂.all f := by
  rw [Bool.eq_iff_iff]
  simp only [List.all_eq_true]
  exact ⟨fun H x hx => H x (h.mem_iff.2 hx), fun H x hx => H x (h.mem_iff.1 hx)⟩

theorem any_eq_of_perm {α : Type} (f : α → Bool) {l₁ l₂ : List α} (h : l₁.Perm l₂) :
    l₁.any f = l₂.any f := by
  rw [Bool.eq_iff_iff]
  simp only [List.any_eq_true]
  exact ⟨fun ⟨x, hx, hf⟩ => ⟨x, h.mem_iff.1 hx, hf⟩, fun ⟨x, hx, hf⟩ => ⟨x, h.mem_iff.2 hx, hf⟩⟩

/-- Two enumerations of one map look every key up alike. -/
theorem lookup_eq_of_perm (d d' : List (String × Value)) (hd : (d.map Prod.fst).Nodup)
    (h : d'.Perm d) (k : String) : d'.lookup k = d.lookup k := by
  have hd' : (d'.map Prod.fst).Nodup := ((h.map Prod.fst).nodup_iff).2 hd
  cases hl : d.lookup k with
  | some v => exact lookup_of_mem_nodup d' k v hd' (h.mem_iff.2 (mem_of_lookup hl))
  | none =>
    cases hl' : d'.lookup k with
    | none => rfl
    | some v =>
      have := lookup_of_mem_nodup d k v hd (h.mem_iff.1 (mem_of_lookup hl'))
      rw [hl] at this
      cases this

/-- When no contribution panics, what the exact single pass shows is a function of the set
of the
contributions: an error if one of them is an error, and their conjunction otherwise. -/
theorem exactPass_observation_of_no_panic (L : Lib) (d p : List (String × Value))
    (hnp : ∀ k y, (k, y) ∈ p → exactKeyContribution L d k y ≠ indexPanic) :
    (exactSinglePass L d p).observation =
      if p.any (fun e => (exactKeyContribution L d e.1 e.2).isError) then some (false, true)
      else some (p.all (fun e =>
        (exactKeyContribution L d e.1 e.2).observation == some (true, false)), false) := by
  induction p with
  | nil => simp [exactSinglePass, Outcome.observation]
  | cons entry rest ih =>
    obtain ⟨k, y⟩ := entry
    have ih' := ih (fun k' y' hm => hnp k' y' (List.mem_cons_of_mem _ hm))
    rw [exactPass_cons]
    cases hc : exactKeyContribution L d k y with
    | indexPanic => exact absurd hc (hnp k y (List.mem_cons_self _ _))
    | ret c err =>
      have o1 : ∀ (b : Bool) (e : MatchError),
          (ret b (some e)).observation = some (b, true) := fun _ _ => rfl
      have o2 : ∀ b : Bool, (ret b none).observation = some (b, false) := fun _ => rfl
      have e1 : (ret c none).isError = false := rfl
      cases err with
      | some e =>
        have e2 : (ret c (some e)).isError = true := rfl
        simp only [List.any_cons]
        rw [if_pos (by rw [hc]; rfl)]
        rfl
      | none =>
        simp only [List.any_cons, List.all_cons, hc, e1, Bool.false_or, o2]
        cases hr : exactSinglePass L d rest with
        | indexPanic =>
          rw [hr] at ih'
          split at ih' <;> cases ih'
        | ret b' err' =>
          rw [hr] at ih'
          cases err' with
          | some e' =>
            show (ret b' (some e')).observation = _
            rw [o1] at ih' ⊢
            split at ih'
            · rename_i hany
              rw [if_pos hany]
              exact ih'
            · cases ih'
          | none =>
            show (ret (c && b') none).observation = _
            rw [o2] at ih' ⊢
            split at ih'
            · cases ih'
            · rename_i hany
              have hb := (Prod.mk.inj (Option.some.inj ih')).1
              rw [if_neg hany, ← hb]
              cases c <;> cases b' <;> rfl

/-- When no call on a shared key panics, the verdict and the presence of an error that
`_matchMap` shows are the same for every enumeration order of the document's keys and of
the pattern's keys. -/
theorem key_order_irrelevant_without_panic (L : Lib) (d d' p p' : List (String × Value))
    (hd : (d.map Prod.fst).Nodup) (hp : (p.map Prod.fst).Nodup)
    (hdd : d'.Perm d) (hpp : p'.Perm p)
    (hnp : ∀ k v y, (k, v) ∈ d → p.lookup k = some y → _match L v y ≠ indexPanic) :
    (_matchMap L (.obj d') (.obj p')).observation =
      (_matchMap L (.obj d) (.obj p)).observation := by
  have hd' : (d'.map Prod.fst).Nodup := ((hdd.map Prod.fst).nodup_iff).2 hd
  have hp' : (p'.map Prod.fst).Nodup := ((hpp.map Prod.fst).nodup_iff).2 hp
  have hnp' : ∀ k v y, (k, v) ∈ d' → p'.lookup k = some y → _match L v y ≠ indexPanic :=
    fun k v y hm hy => hnp k v y (hdd.mem_iff.1 hm)
      (by rw [← lookup_eq_of_perm p p' hp hpp k]; exact hy)
  have hkc : ∀ k y, exactKeyContribution L d' k y = exactKeyContribution L d k y := by
    intro k y
    unfold exactKeyContribution
    rw [lookup_eq_of_perm d d' hd hdd k]
  have hcp : ∀ k y, (k, y) ∈ p → exactKeyContribution L d k y ≠ indexPanic := by
    intro k y hm
    cases hl : d.lookup k with
    | none =>
      obtain ⟨c, hc⟩ := exactKeyContribution_of_absent L d k y hl
      rw [hc]
      exact fun h => by cases h
    | some v =>
      rw [exactKeyContribution_of_present L d k y v hl]
      exact hnp k v y (mem_of_lookup hl) (lookup_of_mem_nodup p k y hp hm)
  have hcp' : ∀ k y, (k, y) ∈ p' → exactKeyContribution L d' k y ≠ indexPanic :=
    fun k y hm => by rw [hkc]; exact hcp k y (hpp.mem_iff.1 hm)
  rw [two_pass_observation_of_no_panic L d p hd hp hnp,
    two_pass_observation_of_no_panic L d' p' hd' hp' hnp',
    exactPass_observation_of_no_panic L d p hcp,
    exactPass_observation_of_no_panic L d' p' hcp']
  have hf : (fun e : String × Value => (exactKeyContribution L d' e.1 e.2).isError) =
      (fun e => (exactKeyContribution L d e.1 e.2).isError) := by
    funext e; rw [hkc]
  have hg : (fun e : String × Value =>
        (exactKeyContribution L d' e.1 e.2).observation == some (true, false)) =
      (fun e => (exactKeyContribution L d e.1 e.2).observation == some (true, false)) := by
    funext e; rw [hkc]
  rw [hf, hg, any_eq_of_perm _ hpp, all_eq_of_perm _ hpp]

/-- C23. The result depends on the order in which the keys of an object are enumerated.
For the document `\x7b"tags": ["x","y","z"], "id": 7\x7d` and the pattern
`\x7b"tags": ["#string","#string"], "id": "#nope"\x7d`, the first pass visits the
document's keys: when `"tags"` comes first the call panics in `vY.Index(2)` and nothing is
returned, and when `"id"` comes first `_match` returns `false` with the error of the unknown
marker. The two documents are the same map. -/
theorem key_order_decides_between_error_and_panic (L : Lib) :
    [("id", Value.num 7), ("tags", Value.arr [.str "x", .str "y", .str "z"])].Perm
      [("tags", Value.arr [.str "x", .str "y", .str "z"]), ("id", Value.num 7)] ∧
    _match L (.obj [("tags", .arr [.str "x", .str "y", .str "z"]), ("id", .num 7)])
      (.obj [("tags", .arr [.str "#string", .str "#string"]), ("id", .str "#nope")]) =
        indexPanic ∧
    _match L (.obj [("id", .num 7), ("tags", .arr [.str "x", .str "y", .str "z"])])
      (.obj [("tags", .arr [.str "#string", .str "#string"]), ("id", .str "#nope")]) =
        ret false (some (.mapElement "id" (.unsupportedSpecifier "#nope"))) := by
  refine ⟨List.Perm.swap _ _ _, ?_, ?_⟩ <;>
    simp [_match, _matchSlice, _matchSliceLoop, _matchMap, _matchMapCheckIteratingObject,
      _matchMapCheckIteratingObjectLoop, _matchMapCheckIteratingSpec,
      _matchMapCheckIteratingSpecLoop, List.lookup, Value.kind, Value.isValid, Value.isNil,
      getMarker, _matchPrimitive, matchers, Value.asString, deepEqual, hasHash,
      _matchWithSpecifier, splitN, List.span, List.span.loop, ignoreMarker, nullMarker,
      presentMarker]

/-! ## C21: the single pass of the specification -/

/-- Without a space, `splitN` returns the whole string as the name. -/
theorem splitN_whole (s n : String) (h : splitN s = (n, none)) : n = s := by
  unfold splitN at h
  have hspan := List.span_eq_take_drop (fun c => c != ' ') s.data
  cases hsp : s.data.span (fun c => c != ' ') with
  | mk name rest =>
    rw [hsp] at h hspan
    cases rest with
    | nil =>
      have h1 : name = s.data := by
        have := List.takeWhile_append_dropWhile (fun c => c != ' ') s.data
        rw [← (Prod.mk.inj hspan).1, ← (Prod.mk.inj hspan).2] at this
        simpa using this
      have h2 : String.mk name = n := (Prod.mk.inj h).1
      rw [← h2, h1]
    | cons c arg => cases h

/-- On a pattern that is not a presence marker followed by an argument, the recognition by
name of the specification and the whole-string test of the source agree. -/
theorem isMarkerNamed_eq_isMarker (pat : Value) (m : String)
    (hm : m = "#notpresent" ∨ m = "#present" ∨ m = "#ignore")
    (hb : presenceMarkerBare pat = true) : isMarkerNamed pat m = isMarker pat m := by
  have hsplit : splitN m = (m, none) := by
    rcases hm with rfl | rfl | rfl
    · exact splitN_notpresent
    · exact splitN_present
    · exact splitN_ignore
  cases pat with
  | str s =>
    unfold isMarkerNamed isMarker
    rw [getMarker_str]
    unfold presenceMarkerBare at hb
    unfold recognize at hb ⊢
    by_cases hh : hasHash s = true
    · simp only [hh, if_true] at hb ⊢
      cases hsp : splitN s with
      | mk n a =>
        rw [hsp] at hb
        cases a with
        | none =>
          have := splitN_whole s n hsp
          subst this
          simp only [Bool.true_and]
          rw [Bool.eq_iff_iff, beq_iff_eq, beq_iff_eq]
          exact eq_comm
        | some arg =>
          simp only [] at hb
          have h1 : (n == m) = false := by
            rw [beq_eq_false_iff_ne]
            intro h
            subst h
            rcases hm with rfl | rfl | rfl <;> simp at hb
          have h2 : (m == s) = false := by
            rw [beq_eq_false_iff_ne]
            intro h
            subst h
            rw [hsplit] at hsp
            cases hsp
          simp only [h1, h2, Bool.and_false]
    · simp [hh]
  | null => rfl
  | bool b => rfl
  | num q => rfl
  | arr xs => rfl
  | obj kvs => rfl

theorem keyContribution_eq_exact (L : Lib) (d : List (String × Value)) (k : String)
    (pat : Value) (hb : presenceMarkerBare pat = true) :
    keyContribution L d k pat = exactKeyContribution L d k pat := by
  unfold keyContribution exactKeyContribution
  rw [isMarkerNamed_eq_isMarker pat _ (Or.inl rfl) hb,
    isMarkerNamed_eq_isMarker pat _ (Or.inr (Or.inl rfl)) hb,
    isMarkerNamed_eq_isMarker pat _ (Or.inr (Or.inr rfl)) hb]

/-- When no presence marker of the pattern carries an argument, the single pass of the
specification is the single pass with the whole-string test. -/
theorem referenceMatchMap_eq_exact (L : Lib) (d p : List (String × Value))
    (hb : ∀ k y, (k, y) ∈ p → presenceMarkerBare y = true) :
    referenceMatchMap L d p = exactSinglePass L d p := by
  induction p with
  | nil => rfl
  | cons entry rest ih =>
    obtain ⟨k, y⟩ := entry
    simp only [referenceMatchMap, exactSinglePass]
    rw [keyContribution_eq_exact L d k y (hb k y (List.mem_cons_self _ _)),
      ih (fun k' y' hm => hb k' y' (List.mem_cons_of_mem _ hm))]

/-- What holds of the equality of the two procedures. For maps (distinct keys) in which no
presence marker of the pattern carries an argument, `_matchMap` and the single pass of the
specification return the same error-free verdicts; they show the same verdict and the same
presence of an error whenever no call on a shared key panics; and what one of them shows
is shown by the other for some enumeration order of the keys. -/
theorem two_pass_equals_reference_on_bare_markers (L : Lib) (d p : List (String × Value))
    (hd : (d.map Prod.fst).Nodup) (hp : (p.map Prod.fst).Nodup)
    (hbare : ∀ k y, (k, y) ∈ p → presenceMarkerBare y = true) :
    (∀ b, _matchMap L (.obj d) (.obj p) = ret b none ↔
      referenceMatchMap L d p = ret b none) ∧
    ((∀ k v y, (k, v) ∈ d → p.lookup k = some y → _match L v y ≠ indexPanic) →
      (_matchMap L (.obj d) (.obj p)).observation =
        (referenceMatchMap L d p).observation) ∧
    (∃ p', p'.Perm p ∧
      (referenceMatchMap L d p').observation =
        (_matchMap L (.obj d) (.obj p)).observation) ∧
    (∃ d', d'.Perm d ∧
      (_matchMap L (.obj d') (.obj p)).observation =
        (referenceMatchMap L d p).observation) := by
  rw [referenceMatchMap_eq_exact L d p hbare]
  refine ⟨fun b => ⟨exactPass_verdict_of_two_pass L d p hd hp b,
      two_pass_verdict_of_exactPass L d p hd b⟩,
    two_pass_observation_of_no_panic L d p hd hp, ?_,
    two_pass_reaches_exactPass L d p hd hp⟩
  obtain ⟨p', hperm, h⟩ := exactPass_reaches_two_pass L d p hd hp
  refine ⟨p', hperm, ?_⟩
  rw [referenceMatchMap_eq_exact L d p' (fun k y hm => hbare k y (hperm.mem_iff.1 hm))]
  exact h

theorem two_pass_equals_reference_on_bare_markers_witness :
    ([("id", Value.num 2), ("ok", Value.bool false)].map Prod.fst).Nodup ∧
    ([("foo", Value.str "#notpresent"), ("id", Value.str "#number"),
      ("ok", Value.str "#boolean")].map Prod.fst).Nodup ∧
    referenceMatchMap Lib.rejecting [("id", .num 2), ("ok", .bool false)]
      [("foo", .str "#notpresent"), ("id", .str "#number"), ("ok", .str "#boolean")] =
        ret true none ∧
    (_matchMap Lib.rejecting (.obj [("id", .num 2), ("ok", .bool false)])
        (.obj [("foo", .str "#notpresent"), ("id", .str "#number"),
          ("ok", .str "#boolean")]) = ret true none ↔
      referenceMatchMap Lib.rejecting [("id", .num 2), ("ok", .bool false)]
        [("foo", .str "#notpresent"), ("id", .str "#number"), ("ok", .str "#boolean")] =
          ret true none) :=
  ⟨by decide, by decide,
    by simp [referenceMatchMap, keyContribution, isMarkerNamed, recognize, _match,
      List.lookup, Value.kind, Value.isValid, Value.isNil, getMarker, Value.asString, hasHash,
      _matchWithSpecifier, splitN, List.span, List.span.loop, ignoreMarker, nullMarker,
      presentMarker],
    (two_pass_equals_reference_on_bare_markers Lib.rejecting
      [("id", .num 2), ("ok", .bool false)]
      [("foo", .str "#notpresent"), ("id", .str "#number"), ("ok", .str "#boolean")]
      (by decide) (by decide)
      (by
        intro k y hm
        simp only [List.mem_cons, List.mem_singleton, List.not_mem_nil, or_false,
          Prod.mk.injEq] at hm
        rcases hm with ⟨_, rfl⟩ | ⟨_, rfl⟩ | ⟨_, rfl⟩ <;>
          simp [presenceMarkerBare, recognize, hasHash, splitN, List.span,
            List.span.loop])).1 true⟩

/-- A presence marker followed by an argument: the source tests the three markers as whole
strings, the specification recognises them by name. On an absent key, and on a key whose
value is null, `"#ignore foo"` is a false verdict in the source and a true contribution in
the single pass of the specification; the same for `"#notpresent x"` on an absent key. -/
theorem presence_marker_with_argument (L : Lib) :
    _matchMap L (.obj []) (.obj [("k", .str "#ignore foo")]) = ret false none ∧
    referenceMatchMap L [] [("k", .str "#ignore foo")] = ret true none ∧
    _matchMap L (.obj [("k", .null)]) (.obj [("k", .str "#ignore foo")]) = ret false none ∧
    referenceMatchMap L [("k", .null)] [("k", .str "#ignore foo")] = ret true none ∧
    _matchMap L (.obj []) (.obj [("k", .str "#notpresent x")]) = ret false none ∧
    referenceMatchMap L [] [("k", .str "#notpresent x")] = ret true none := by
  refine ⟨?_, ?_, ?_, ?_, ?_, ?_⟩ <;>
    simp [referenceMatchMap, keyContribution, isMarkerNamed, recognize, isMarker, _match,
      _matchMap, _matchMapCheckIteratingObject, _matchMapCheckIteratingObjectLoop,
      _matchMapCheckIteratingSpec, _matchMapCheckIteratingSpecLoop, List.lookup, Value.kind,
      Value.isValid, Value.isNil, getMarker, Value.asString, hasHash, _matchWithSpecifier,
      splitN, List.span, List.span.loop, ignoreMarker, nullMarker, presentMarker]

/-- C21. The two-pass object comparison does not show what the single pass of the
specification shows. The document `\x7b"n": 1, "xs": [true, true, true]\x7d` against the
pattern `\x7b"xs": [true, true], "n": "#bad"\x7d`: the comparison of the arrays panics in
`vY.Index(2)`, the marker `"#bad"` is an error, and which of the two is met first depends on
whose keys are enumerated. With the document's keys in the order `n, xs` and the pattern's
in the order `xs, n`, `_matchMap` returns `false` with an error and the single pass panics;
with the orders `xs, n` and `n, xs` it is `_matchMap` that panics and returns nothing, and
the single pass that returns `false` with an error. -/
theorem two_pass_and_single_pass_part_at_a_panic (L : Lib) :
    _match L (.arr [.bool true, .bool true, .bool true]) (.arr [.bool true, .bool true]) =
      indexPanic ∧
    _matchMap L (.obj [("n", .num 1), ("xs", .arr [.bool true, .bool true, .bool true])])
      (.obj [("xs", .arr [.bool true, .bool true]), ("n", .str "#bad")]) =
        ret false (some (.mapElement "n" (.unsupportedSpecifier "#bad"))) ∧
    referenceMatchMap L [("n", .num 1), ("xs", .arr [.bool true, .bool true, .bool true])]
      [("xs", .arr [.bool true, .bool true]), ("n", .str "#bad")] = indexPanic ∧
    _matchMap L (.obj [("xs", .arr [.bool true, .bool true, .bool true]), ("n", .num 1)])
      (.obj [("n", .str "#bad"), ("xs", .arr [.bool true, .bool true])]) = indexPanic ∧
    referenceMatchMap L [("xs", .arr [.bool true, .bool true, .bool true]), ("n", .num 1)]
      [("n", .str "#bad"), ("xs", .arr [.bool true, .bool true])] =
        ret false (some (.unsupportedSpecifier "#bad")) := by
  refine ⟨?_, ?_, ?_, ?_, ?_⟩ <;>
    simp [referenceMatchMap, keyContribution, isMarkerNamed, recognize, isMarker, _match,
      _matchSlice, _matchSliceLoop, _matchMap, _matchMapCheckIteratingObject,
      _matchMapCheckIteratingObjectLoop, _matchMapCheckIteratingSpec,
      _matchMapCheckIteratingSpecLoop, List.lookup, Value.kind, Value.isValid, Value.isNil,
      getMarker, _matchPrimitive, matchers, Value.asString, deepEqual, hasHash,
      _matchWithSpecifier, splitN, List.span, List.span.loop, ignoreMarker, nullMarker,
      presentMarker]

end Matcher
